import Mathlib

/-!
# Verification of the Service Bus consumer coordinator loop

A shallow embedding of the coordinator loop of `sz_sb_consumer.py`: the
drain-completions phase, the periodic housekeeping (stats dump and stuck
scan with lease renewal), the fetch-admission phase, and the shutdown
handler, together with the configuration resolution of `max_workers` and
`prefetch`.

Times are modelled as integers (the loop only compares and subtracts
clock readings; with integer clocks, the one halved comparison
`now > log_check_time + LONG_RECORD/2` is equivalent to its
integer-division form).  External collaborators (the JSON parser
`orjson.loads` restricted to the two identifier fields, and the Senzing
engine `add_record` call) are modelled as oracles passed in as functions;
the broker operations (`complete_message`, `dead_letter_message`,
`renew_message_lock`, receiver recycle) are modelled as actions recorded
in an output trace, in the order the code issues them.  Nondeterministic
inputs of one loop iteration (the set of completed futures returned by
`concurrent.futures.wait`, done-ness observed later by `fut.done()`, the
batches returned by `receiver.receive_messages`, and clock readings) are
supplied as an explicit input record.
-/

deriving instance DecidableEq for Except

/-- The two identifier fields extracted from a parsed payload
(`record["DATA_SOURCE"]` and `record["RECORD_ID"]`). -/
structure Record where
  dataSource : String
  recordId : String
deriving DecidableEq, Repr

/-- A delivered queue message: an abstract handle identity plus the payload
text (`str(msg)` after stripping). -/
structure Msg where
  handleId : Nat
  body : String
deriving DecidableEq, Repr

/-- Outcome of one `engine.add_record` call on a parsed record. -/
inductive EngineOutcome where
  | ok (info : String)
  | badInput
  | retryTimeout
  | otherError
deriving DecidableEq, Repr

/-- The exception classes that can cross the future boundary out of
`process_msg`: the two classified Senzing errors, and everything else
(JSON parse errors, unclassified engine errors). -/
inductive PyErr where
  | szBadInput
  | szRetryTimeout
  | other
deriving DecidableEq, Repr

/-- `process_msg(engine, msg, info)`: parse the payload, call
`engine.add_record`, return the with-info response when requested.  Any
exception is re-raised to the future (the stderr print inside the worker is
not part of the coordinator trace). -/
def process_msg (parseRec : String → Option Record) (engine : Record → EngineOutcome)
    (msg : Msg) (info : Bool) : Except PyErr (Option String) :=
  match parseRec msg.body with
  | none => .error .other
  | some r =>
    match engine r with
    | .ok s => if info then .ok (some s) else .ok none
    | .badInput => .error .szBadInput
    | .retryTimeout => .error .szRetryTimeout
    | .otherError => .error .other

/-- An in-flight registry entry: the tuple `(msg, startTime, timesExtended)`
stored as the value of the `futures` dict. -/
structure Entry where
  msg : Msg
  startTime : ℤ
  extended : ℕ
deriving DecidableEq, Repr

/-- Observable actions of the coordinator, in program order. -/
inductive Act where
  | printResult (s : String)
  | errPrint
  | deadLetterLine (r : Record)
  | deadLetter (m : Msg)
  | complete (m : Msg)
  | rateLine (messages : ℕ) (speed : ℤ)
  | statsLine
  | renewLock (m : Msg)
  | extendedLine (r : Record) (times : ℕ)
  | allStuckLine (n : ℕ)
  | sleep1
  | recycleReceiver
  | processedTotalLine (messages : ℕ)
  | shutdownErrLine
  | stillProcessing (r : Record) (elapsed : ℤ)
  | shutdownPool
  | exitCode (z : ℤ)
deriving DecidableEq, Repr

/-- The rate-stat interval: the source constant `INTERVAL = 10000`. -/
def INTERVAL : ℕ := 10000

/-- State threaded through the drain-completions `for fut in done` loop. -/
structure DrainAcc where
  futures : List (ℕ × Entry)
  messages : ℕ
  prevTime : ℤ
  deleteBatch : List Msg
  deleteCnt : ℕ
deriving DecidableEq, Repr

/-- `futures.pop(fut)`: remove the entry keyed by `tok`, returning it and the
remaining association list (insertion order preserved). -/
def popToken (tok : ℕ) : List (ℕ × Entry) → Option (Entry × List (ℕ × Entry))
  | [] => none
  | (t, e) :: rest =>
    if t = tok then some (e, rest)
    else
      match popToken tok rest with
      | none => none
      | some (e2, rest2) => some (e2, (t, e) :: rest2)

/-- The displayed speed: `int(INTERVAL / diff)` when `diff > 0`, else the
`-1` sentinel. -/
def rateSpeed (interval : ℕ) (diff : ℤ) : ℤ :=
  if 0 < diff then (interval : ℤ) / diff else -1

/-- The tail of the per-completion body: append the handle to the delete
batch, flush the batch when it reaches 10, bump `messages`, and emit a rate
line every `interval` messages (resetting `prevTime`). -/
def afterAck (interval : ℕ) (nowTime : ℤ) (m : Msg) (acc : DrainAcc) :
    DrainAcc × List Act :=
  let batch1 := acc.deleteBatch ++ [m]
  let cnt1 := acc.deleteCnt + 1
  let flushed := cnt1 = 10
  let batch2 := if flushed then [] else batch1
  let cnt2 := if flushed then 0 else cnt1
  let tr1 := if flushed then batch1.map Act.complete else []
  let messages1 := acc.messages + 1
  if messages1 % interval = 0 then
    let speed := rateSpeed interval (nowTime - acc.prevTime)
    ({ acc with deleteBatch := batch2, deleteCnt := cnt2, messages := messages1,
                prevTime := nowTime },
     tr1 ++ [Act.rateLine messages1 speed])
  else
    ({ acc with deleteBatch := batch2, deleteCnt := cnt2, messages := messages1 }, tr1)

/-- The `except (SzRetryTimeoutExceededError, SzBadInputError)` branch:
print the error, re-parse the payload (an unparseable payload would raise
out of the drain loop), print the dead-letter line, dead-letter the handle,
then fall through to `afterAck`. -/
def drainDeadLetter (parseRec : String → Option Record) (interval : ℕ) (nowTime : ℤ)
    (e : Entry) (acc : DrainAcc) :
    Except (DrainAcc × List Act) (DrainAcc × List Act) :=
  match parseRec e.msg.body with
  | none => .error (acc, [Act.errPrint])
  | some r =>
    let out := afterAck interval nowTime e.msg acc
    .ok (out.1, [Act.errPrint, Act.deadLetterLine r, Act.deadLetter e.msg] ++ out.2)

/-- One pass of the `for fut in done` body for the future keyed `tok`.
An uncaught exception (any error other than the two classified Senzing
errors) is returned as `.error`: it propagates out of the drain loop with
the entry already popped and the pending delete batch dropped. -/
def drainOne (parseRec : String → Option Record) (engine : Record → EngineOutcome)
    (info : Bool) (interval : ℕ) (nowTime : ℤ) (acc : DrainAcc) (tok : ℕ) :
    Except (DrainAcc × List Act) (DrainAcc × List Act) :=
  match popToken tok acc.futures with
  | none => .ok (acc, [])
  | some (e, rest) =>
    let acc1 := { acc with futures := rest }
    match process_msg parseRec engine e.msg info with
    | .ok res =>
      let tr0 := match res with
        | some s => if s = "" then [] else [Act.printResult s]
        | none => []
      let out := afterAck interval nowTime e.msg acc1
      .ok (out.1, tr0 ++ out.2)
    | .error .szBadInput => drainDeadLetter parseRec interval nowTime e acc1
    | .error .szRetryTimeout => drainDeadLetter parseRec interval nowTime e acc1
    | .error .other => .error (acc1, [])

/-- The whole `for fut in done` loop, threading the accumulator and
concatenating traces; an uncaught exception short-circuits. -/
def drainList (parseRec : String → Option Record) (engine : Record → EngineOutcome)
    (info : Bool) (interval : ℕ) (nowTime : ℤ) :
    List ℕ → DrainAcc → Except (DrainAcc × List Act) (DrainAcc × List Act)
  | [], acc => .ok (acc, [])
  | t :: ts, acc =>
    match drainOne parseRec engine info interval nowTime acc t with
    | .error r => .error r
    | .ok (a, tr) =>
      match drainList parseRec engine info interval nowTime ts a with
      | .ok (a2, tr2) => .ok (a2, tr ++ tr2)
      | .error (a2, tr2) => .error (a2, tr ++ tr2)

/-- The trailing `if delete_batch:` flush after the drain loop. -/
def flushTrace (acc : DrainAcc) : List Act :=
  acc.deleteBatch.map Act.complete

/-- Drain accumulator at the top of an iteration: fresh delete batch. -/
def initAcc (futures : List (ℕ × Entry)) (messages : ℕ) (prevTime : ℤ) : DrainAcc :=
  { futures := futures, messages := messages, prevTime := prevTime,
    deleteBatch := [], deleteCnt := 0 }

/-- The complete drain-completions phase of one iteration: the `for` loop
over the done set followed by the final batch flush. -/
def drainPhase (parseRec : String → Option Record) (engine : Record → EngineOutcome)
    (info : Bool) (interval : ℕ) (nowTime : ℤ) (futures : List (ℕ × Entry))
    (messages : ℕ) (prevTime : ℤ) (done : List ℕ) :
    Except (DrainAcc × List Act) (DrainAcc × List Act) :=
  match drainList parseRec engine info interval nowTime done (initAcc futures messages prevTime) with
  | .ok (a, tr) => .ok (a, tr ++ flushTrace a)
  | .error r => .error r

/-- Is the entry stuck at scan time: its future is not done and its age
exceeds `LONG_RECORD * (extensions + 1)`. -/
def isStuckEntry (longRecord : ℤ) (nowTime : ℤ) (doneAtScan : List ℕ) (te : ℕ × Entry) : Bool :=
  decide (te.1 ∉ doneAtScan) &&
    decide (longRecord * (te.2.extended + 1) < nowTime - te.2.startTime)

/-- The in-place update a stuck entry receives: only the extension count
changes. -/
def bumpStuck (longRecord : ℤ) (nowTime : ℤ) (doneAtScan : List ℕ) (te : ℕ × Entry) :
    ℕ × Entry :=
  if isStuckEntry longRecord nowTime doneAtScan te then
    (te.1, { te.2 with extended := te.2.extended + 1 })
  else te

/-- The `if numStuck >= executor._max_workers` informational line checked
after every scanned entry. -/
def stuckLineIf (maxWorkers numStuck : ℕ) : List Act :=
  if maxWorkers ≤ numStuck then [Act.allStuckLine maxWorkers] else []

/-- The `for fut, msg in futures.items()` stuck scan.  For each not-done
entry older than `LONG_RECORD * (extensions + 1)`: re-parse the payload (an
unparseable one raises out of the scan before the renewal), renew the lock,
bump the stored extension count, print the extended-visibility line; after
every entry the `numStuck >= max_workers` informational line is checked.
The returned list is the registry after the in-place updates; on a raise it
is the partially-updated registry. -/
def scanStuck (parseRec : String → Option Record) (longRecord : ℤ) (maxWorkers : ℕ)
    (nowTime : ℤ) (doneAtScan : List ℕ) :
    List (ℕ × Entry) → ℕ → Except (List (ℕ × Entry) × List Act) (List (ℕ × Entry) × List Act)
  | [], _ => .ok ([], [])
  | (t, e) :: rest, numStuck =>
    if isStuckEntry longRecord nowTime doneAtScan (t, e) then
      match parseRec e.msg.body with
      | none => .error ((t, e) :: rest, [])
      | some r =>
        let te := e.extended + 1
        let e2 := { e with extended := te }
        let ns2 := numStuck + 1
        let tr1 := [Act.renewLock e.msg, Act.extendedLine r te] ++ stuckLineIf maxWorkers ns2
        match scanStuck parseRec longRecord maxWorkers nowTime doneAtScan rest ns2 with
        | .ok (fs, tr) => .ok ((t, e2) :: fs, tr1 ++ tr)
        | .error (fs, tr) => .error ((t, e2) :: fs, tr1 ++ tr)
    else
      let tr1 := stuckLineIf maxWorkers numStuck
      match scanStuck parseRec longRecord maxWorkers nowTime doneAtScan rest numStuck with
      | .ok (fs, tr) => .ok ((t, e) :: fs, tr1 ++ tr)
      | .error (fs, tr) => .error ((t, e) :: fs, tr1 ++ tr)

/-- The periodic housekeeping: when `nowTime > logCheckTime + LONG_RECORD/2`,
reset `logCheckTime`, dump engine stats and run the stuck scan; otherwise do
nothing.  Returns the (possibly updated) registry, the new `logCheckTime`
and the trace. -/
def houseKeeping (parseRec : String → Option Record) (longRecord : ℤ) (maxWorkers : ℕ)
    (nowTime : ℤ) (doneAtScan : List ℕ) (futures : List (ℕ × Entry)) (logCheckTime : ℤ) :
    Except (List (ℕ × Entry) × ℤ × List Act) (List (ℕ × Entry) × ℤ × List Act) :=
  if logCheckTime + longRecord / 2 < nowTime then
    match scanStuck parseRec longRecord maxWorkers nowTime doneAtScan futures 0 with
    | .ok (fs, tr) => .ok (fs, nowTime, Act.statsLine :: tr)
    | .error (fs, tr) => .error (fs, nowTime, Act.statsLine :: tr)
  else .ok (futures, logCheckTime, [])

/-- Dispatch a fetched batch: submit each message and register it with the
tuple `(this_msg, time.time(), 0)`, keyed by fresh future tokens. -/
def assignToks (dispatchNow : ℤ) (nextTok : ℕ) : List Msg → List (ℕ × Entry)
  | [] => []
  | m :: ms => (nextTok, { msg := m, startTime := dispatchNow, extended := 0 }) ::
      assignToks dispatchNow (nextTok + 1) ms

/-- The inner `while len(futures) < max_workers + prefetch` fetch loop.
Each round requests `budget - len(futures)` messages; an empty response
recycles the receiver when the registry is empty and in any case breaks out
of the loop; a non-empty response is dispatched entirely.  The successive
broker responses are supplied as the `batches` list. -/
def fetchLoop (budget : ℕ) (dispatchNow : ℤ) :
    List (List Msg) → ℕ → List (ℕ × Entry) → List (ℕ × Entry) × ℕ × List Act
  | [], nextTok, futures => (futures, nextTok, [])
  | b :: rest, nextTok, futures =>
    if futures.length < budget then
      if b.isEmpty then
        if futures.length = 0 then (futures, nextTok, [Act.recycleReceiver])
        else (futures, nextTok, [])
      else
        fetchLoop budget dispatchNow rest (nextTok + b.length)
          (futures ++ assignToks dispatchNow nextTok b)
    else (futures, nextTok, [])

/-- The fetch-admission step: when the registry has reached the budget,
sleep one second and restart the outer loop (`continue`, skipping the
processed-total line); otherwise run the inner fetch loop and print the
processed-total line. -/
def admission (budget : ℕ) (messages : ℕ) (dispatchNow : ℤ) (batches : List (List Msg))
    (nextTok : ℕ) (futures : List (ℕ × Entry)) : List (ℕ × Entry) × ℕ × List Act :=
  if budget ≤ futures.length then (futures, nextTok, [Act.sleep1])
  else
    let out := fetchLoop budget dispatchNow batches nextTok futures
    (out.1, out.2.1, out.2.2 ++ [Act.processedTotalLine messages])

/-- Static configuration of the loop: the effective worker-pool size
(`executor._max_workers`), the prefetch budget, `LONG_RECORD`, `INTERVAL`
(fixed to 10000 in the source) and the `--info` flag. -/
structure Config where
  maxWorkers : ℕ
  prefetch : ℕ
  longRecord : ℤ
  interval : ℕ
  withInfo : Bool
deriving DecidableEq, Repr

/-- Coordinator state between iterations of the outer `while True` loop. -/
structure LoopState where
  futures : List (ℕ × Entry)
  messages : ℕ
  prevTime : ℤ
  logCheckTime : ℤ
  nextTok : ℕ
deriving DecidableEq, Repr

/-- The nondeterministic inputs consumed by one iteration: the clock at the
top of the loop, the completed futures returned by `wait`, done-ness as
observed by `fut.done()` during the stuck scan, the broker responses of the
inner fetch loop, the clock at dispatch, and (used only if the iteration
raises) the clock and done-ness observed inside the shutdown handler. -/
structure IterInput where
  now : ℤ
  doneTokens : List ℕ
  doneAtScan : List ℕ
  batches : List (List Msg)
  dispatchNow : ℤ
  shutNow : ℤ
  shutDone : List ℕ
deriving Repr

/-- One iteration of the outer `while True` loop.  `.error` means an
exception escaped the iteration (to be handled by the shutdown handler);
it carries the state and trace at the raise point.  The drain and the
housekeeping are guarded by `if futures:`. -/
def iterate (parseRec : String → Option Record) (engine : Record → EngineOutcome)
    (cfg : Config) (inp : IterInput) (st : LoopState) :
    Except (LoopState × List Act) (LoopState × List Act) :=
  let budget := cfg.maxWorkers + cfg.prefetch
  if st.futures.isEmpty then
    let out := admission budget st.messages inp.dispatchNow inp.batches st.nextTok st.futures
    .ok ({ st with futures := out.1, nextTok := out.2.1 }, out.2.2)
  else
    match drainPhase parseRec engine cfg.withInfo cfg.interval inp.now st.futures
        st.messages st.prevTime inp.doneTokens with
    | .error (a, tr) =>
      .error ({ st with futures := a.futures, messages := a.messages,
                        prevTime := a.prevTime }, tr)
    | .ok (a, tr) =>
      match houseKeeping parseRec cfg.longRecord cfg.maxWorkers inp.now inp.doneAtScan
          a.futures st.logCheckTime with
      | .error (fs, lct, tr2) =>
        .error ({ st with futures := fs, messages := a.messages,
                          prevTime := a.prevTime, logCheckTime := lct }, tr ++ tr2)
      | .ok (fs, lct, tr2) =>
        let out := admission budget a.messages inp.dispatchNow inp.batches st.nextTok fs
        .ok ({ futures := out.1, messages := a.messages, prevTime := a.prevTime,
               logCheckTime := lct, nextTok := out.2.1 }, tr ++ tr2 ++ out.2.2)

/-- The "Still processing" report of the shutdown handler: one line per
entry whose future is not done, naming the record identifiers and the
elapsed time; re-parsing an unparseable payload raises out of the report
(the outer handler still exits nonzero). -/
def stillReport (parseRec : String → Option Record) (nowTime : ℤ) (doneNow : List ℕ) :
    List (ℕ × Entry) → Except (List Act) (List Act)
  | [] => .ok []
  | (t, e) :: rest =>
    if t ∈ doneNow then stillReport parseRec nowTime doneNow rest
    else
      match parseRec e.msg.body with
      | none => .error []
      | some r =>
        match stillReport parseRec nowTime doneNow rest with
        | .ok tr => .ok (Act.stillProcessing r (nowTime - e.startTime) :: tr)
        | .error tr => .error (Act.stillProcessing r (nowTime - e.startTime) :: tr)

/-- The `except Exception` shutdown handler of the main loop: print the
shutting-down line, report every still-outstanding entry, shut the pool
down and exit `-1`; if the report itself raises, the outermost handler
still exits `-1` (without the pool shutdown call). -/
def shutdownSeq (parseRec : String → Option Record) (nowTime : ℤ) (doneNow : List ℕ)
    (futures : List (ℕ × Entry)) : List Act :=
  Act.shutdownErrLine ::
    (match stillReport parseRec nowTime doneNow futures with
     | .ok tr => tr ++ [Act.shutdownPool, Act.exitCode (-1)]
     | .error tr => tr ++ [Act.exitCode (-1)])

/-- One iteration together with its exception handling: the trace the
process emits, whether the iteration succeeded or raised into the shutdown
handler. -/
def runStep (parseRec : String → Option Record) (engine : Record → EngineOutcome)
    (cfg : Config) (inp : IterInput) (st : LoopState) : List Act :=
  match iterate parseRec engine cfg inp st with
  | .ok (_, tr) => tr
  | .error (st2, tr) => tr ++ shutdownSeq parseRec inp.shutNow inp.shutDone st2.futures

/-- Configuration resolution for `max_workers` and `prefetch` from the two
environment variables (already parsed by `int(...)`; `none` means unset)
and `os.cpu_count()`.  Returns the `max_workers` value passed to the
executor (`none` when reset to null) and the prefetch budget. -/
def resolveConfig (threadsEnv : Option ℤ) (prefetchEnv : Option ℤ) (cpuCount : Option ℕ) :
    Option ℤ × ℤ :=
  let max_workers : ℤ := threadsEnv.getD 0
  let prefetch0 : ℤ := prefetchEnv.getD (-1)
  if max_workers = 0 then
    (none, min 32 (match cpuCount with | none => 0 | some c => (c : ℤ) + 4))
  else if prefetch0 < 0 then (some max_workers, max_workers)
  else (some max_workers, prefetch0)

/-- Checks that the completed-futures list handed back by `wait` is sound:
pairwise-distinct tokens, each present in the registry (matching the
successive pops the drain loop performs). -/
def doneOk : List ℕ → List (ℕ × Entry) → Bool
  | [], _ => true
  | t :: ts, fs =>
    match popToken t fs with
    | none => false
    | some (_, rest) => doneOk ts rest

/-- Broker contract for the inner fetch loop, along the loop's own request
path: starting from registry size `sz`, every response that the loop
actually consumes has at most the `budget - len(futures)` messages that
`receive_messages` was asked for (`max_message_count`). -/
def fetchFits (budget : ℕ) : ℕ → List (List Msg) → Bool
  | _, [] => true
  | sz, b :: rest =>
    if sz < budget then
      if b.isEmpty then true
      else if b.length ≤ budget - sz then fetchFits budget (sz + b.length) rest
      else false
    else true

/-- The registry as it reaches the fetch-admission step of one iteration:
the input registry after the drain and housekeeping phases (on a raise, the
registry at the raise point — no admission happens then). -/
def preAdmissionFutures (parseRec : String → Option Record) (engine : Record → EngineOutcome)
    (cfg : Config) (inp : IterInput) (st : LoopState) : List (ℕ × Entry) :=
  if st.futures.isEmpty then st.futures
  else
    match drainPhase parseRec engine cfg.withInfo cfg.interval inp.now st.futures
        st.messages st.prevTime inp.doneTokens with
    | .error (a, _) => a.futures
    | .ok (a, _) =>
      match houseKeeping parseRec cfg.longRecord cfg.maxWorkers inp.now inp.doneAtScan
          a.futures st.logCheckTime with
      | .error (fs, _, _) => fs
      | .ok (fs, _, _) => fs

/-- Project the state out of an iteration result, raise or no raise. -/
def iterState (r : Except (LoopState × List Act) (LoopState × List Act)) : LoopState :=
  match r with
  | .ok (s, _) => s
  | .error (s, _) => s

/-- Recognizer for rate lines in a trace. -/
def isRateLine : Act → Bool
  | .rateLine _ _ => true
  | _ => false

/-- Number of rate lines in a trace. -/
def rateCount (tr : List Act) : ℕ := (tr.filter isRateLine).length

/-- Recognizer for the engine-stats dump. -/
def isStatsLine : Act → Bool
  | .statsLine => true
  | _ => false

/-- Recognizer for lease renewals. -/
def isRenew : Act → Bool
  | .renewLock _ => true
  | _ => false

/-- Recognizer for extended-visibility lines. -/
def isExtLine : Act → Bool
  | .extendedLine _ _ => true
  | _ => false

/-- The record identifiers a payload parses to (defaulting to empty fields
for a payload that does not parse; only used where parsing is known to
succeed). -/
def recordOf (parseRec : String → Option Record) (m : Msg) : Record :=
  (parseRec m.body).getD { dataSource := "", recordId := "" }

/-- Recognizer for acks. -/
def isComplete : Act → Bool
  | .complete _ => true
  | _ => false

/-! ## Helper lemmas -/

/-- Project the drain accumulator out of a drain result. -/
def accOf (r : Except (DrainAcc × List Act) (DrainAcc × List Act)) : DrainAcc :=
  match r with
  | .ok (a, _) => a
  | .error (a, _) => a

/-- Project the registry and trace out of a scan result. -/
def scanOut (r : Except (List (ℕ × Entry) × List Act) (List (ℕ × Entry) × List Act)) :
    List (ℕ × Entry) × List Act :=
  match r with
  | .ok x => x
  | .error x => x

lemma assignToks_length (d : ℤ) (ms : List Msg) : ∀ n, (assignToks d n ms).length = ms.length := by
  induction ms with
  | nil => intro n; rfl
  | cons m ms ih => intro n; simp [assignToks, ih]

lemma afterAck_futures (I : ℕ) (now : ℤ) (m : Msg) (acc : DrainAcc) :
    (afterAck I now m acc).1.futures = acc.futures := by
  unfold afterAck
  dsimp only
  split_ifs <;> rfl

lemma popToken_length {tok : ℕ} :
    ∀ {fs : List (ℕ × Entry)} {e rest}, popToken tok fs = some (e, rest) →
      rest.length + 1 = fs.length := by
  intro fs
  induction fs with
  | nil => intro e rest h; simp [popToken] at h
  | cons te fs ih =>
    intro e rest h
    obtain ⟨t, e0⟩ := te
    simp only [popToken] at h
    split_ifs at h with ht
    · simp only [Option.some.injEq, Prod.mk.injEq] at h
      obtain ⟨-, rfl⟩ := h
      simp
    · split at h
      · exact absurd h (by simp)
      · next e2 rest2 hrec =>
        simp only [Option.some.injEq, Prod.mk.injEq] at h
        obtain ⟨-, rfl⟩ := h
        have := ih hrec
        simp [← this]

lemma drainDeadLetter_futures (p : String → Option Record) (I : ℕ) (now : ℤ)
    (e : Entry) (acc : DrainAcc) :
    (accOf (drainDeadLetter p I now e acc)).futures = acc.futures := by
  unfold drainDeadLetter
  split
  · rfl
  · simp [accOf, afterAck_futures]

lemma drainOne_futures_le (p : String → Option Record) (eng : Record → EngineOutcome)
    (i : Bool) (I : ℕ) (now : ℤ) (acc : DrainAcc) (tok : ℕ) :
    (accOf (drainOne p eng i I now acc tok)).futures.length ≤ acc.futures.length := by
  unfold drainOne
  split
  · simp [accOf]
  · next e rest hpop =>
    have hlen := popToken_length hpop
    split
    · simp only [accOf, afterAck_futures]
      omega
    · have h := drainDeadLetter_futures p I now e { acc with futures := rest }
      rw [h]
      dsimp only
      omega
    · have h := drainDeadLetter_futures p I now e { acc with futures := rest }
      rw [h]
      dsimp only
      omega
    · simp only [accOf]
      omega

lemma drainList_futures_le (p : String → Option Record) (eng : Record → EngineOutcome)
    (i : Bool) (I : ℕ) (now : ℤ) :
    ∀ (done : List ℕ) (acc : DrainAcc),
      (accOf (drainList p eng i I now done acc)).futures.length ≤ acc.futures.length := by
  intro done
  induction done with
  | nil => intro acc; simp [drainList, accOf]
  | cons t ts ih =>
    intro acc
    simp only [drainList]
    split
    · next r heq =>
      have h := drainOne_futures_le p eng i I now acc t
      rw [heq] at h
      exact h
    · next a tr heq =>
      have h1 := drainOne_futures_le p eng i I now acc t
      rw [heq] at h1
      simp only [accOf] at h1
      split
      · next a2 tr2 heq2 =>
        have h2 := ih a
        rw [heq2] at h2
        simp only [accOf] at h2 ⊢
        omega
      · next a2 tr2 heq2 =>
        have h2 := ih a
        rw [heq2] at h2
        simp only [accOf] at h2 ⊢
        omega

lemma drainPhase_futures_le (p : String → Option Record) (eng : Record → EngineOutcome)
    (i : Bool) (I : ℕ) (now : ℤ) (futures : List (ℕ × Entry)) (messages : ℕ)
    (prevTime : ℤ) (done : List ℕ) :
    (accOf (drainPhase p eng i I now futures messages prevTime done)).futures.length ≤
      futures.length := by
  unfold drainPhase
  have h := drainList_futures_le p eng i I now done (initAcc futures messages prevTime)
  split
  · next a tr heq =>
    rw [heq] at h
    simpa [accOf, initAcc] using h
  · next r heq =>
    rw [heq] at h
    simpa [accOf, initAcc] using h

lemma scanStuck_length (p : String → Option Record) (LR : ℤ) (mw : ℕ) (now : ℤ)
    (done : List ℕ) :
    ∀ (fs : List (ℕ × Entry)) (ns : ℕ),
      (scanOut (scanStuck p LR mw now done fs ns)).1.length = fs.length := by
  intro fs
  induction fs with
  | nil => intro ns; simp [scanStuck, scanOut]
  | cons te fs ih =>
    intro ns
    obtain ⟨t, e⟩ := te
    simp only [scanStuck]
    split_ifs with hstuck
    · split
      · simp [scanOut]
      · split
        · next fs2 tr heq =>
          have h := ih (ns + 1)
          rw [heq] at h
          simp only [scanOut] at h ⊢
          simp [h]
        · next fs2 tr heq =>
          have h := ih (ns + 1)
          rw [heq] at h
          simp only [scanOut] at h ⊢
          simp [h]
    · split
      · next fs2 tr heq =>
        have h := ih ns
        rw [heq] at h
        simp only [scanOut] at h ⊢
        simp [h]
      · next fs2 tr heq =>
        have h := ih ns
        rw [heq] at h
        simp only [scanOut] at h ⊢
        simp [h]

lemma houseKeeping_length (p : String → Option Record) (LR : ℤ) (mw : ℕ) (now : ℤ)
    (done : List ℕ) (futures : List (ℕ × Entry)) (lct : ℤ) :
    (match houseKeeping p LR mw now done futures lct with
     | .ok (fs, _, _) => fs
     | .error (fs, _, _) => fs).length = futures.length := by
  have h := scanStuck_length p LR mw now done futures 0
  cases hs : scanStuck p LR mw now done futures 0 with
  | ok pr =>
    obtain ⟨fs1, tr1⟩ := pr
    rw [hs] at h
    simp only [scanOut] at h
    by_cases hc : lct + LR / 2 < now <;>
      simp [houseKeeping, hs, hc, h]
  | error pr =>
    obtain ⟨fs1, tr1⟩ := pr
    rw [hs] at h
    simp only [scanOut] at h
    by_cases hc : lct + LR / 2 < now <;>
      simp [houseKeeping, hs, hc, h]

lemma fetchLoop_length_le (budget : ℕ) (d : ℤ) :
    ∀ (batches : List (List Msg)) (ntk : ℕ) (futures : List (ℕ × Entry)),
      fetchFits budget futures.length batches = true →
      futures.length ≤ budget →
      (fetchLoop budget d batches ntk futures).1.length ≤ budget := by
  intro batches
  induction batches with
  | nil => intro ntk futures _ h; simpa [fetchLoop] using h
  | cons b rest ih =>
    intro ntk futures hfit hle
    by_cases h1 : futures.length < budget
    · by_cases h2 : b.isEmpty
      · simp only [fetchLoop, if_pos h1, h2, if_true]
        split_ifs <;> simpa using hle
      · simp only [fetchFits, if_pos h1, h2, Bool.false_eq_true, if_false] at hfit
        split_ifs at hfit with hblen
        · have hnew : (futures ++ assignToks d ntk b).length = futures.length + b.length := by
            simp [assignToks_length]
          have := ih (ntk + b.length) (futures ++ assignToks d ntk b)
            (by rw [hnew]; exact hfit) (by omega)
          simpa [fetchLoop, h1, h2] using this
    · simp [fetchLoop, h1, hle]

lemma admission_length_le (budget messages : ℕ) (d : ℤ) (batches : List (List Msg))
    (ntk : ℕ) (futures : List (ℕ × Entry))
    (hfit : fetchFits budget futures.length batches = true)
    (hle : futures.length ≤ budget) :
    (admission budget messages d batches ntk futures).1.length ≤ budget := by
  unfold admission
  split_ifs with h
  · exact hle
  · exact fetchLoop_length_le budget d batches ntk futures hfit hle

/-! ## C1: the in-flight registry is bounded by `max_workers + prefetch` -/

lemma preAdmission_le (parseRec : String → Option Record) (engine : Record → EngineOutcome)
    (cfg : Config) (inp : IterInput) (st : LoopState) :
    (preAdmissionFutures parseRec engine cfg inp st).length ≤ st.futures.length := by
  unfold preAdmissionFutures
  by_cases hemp : st.futures.isEmpty
  · simp [hemp]
  · have hdrain := drainPhase_futures_le parseRec engine cfg.withInfo cfg.interval inp.now
      st.futures st.messages st.prevTime inp.doneTokens
    cases hd : drainPhase parseRec engine cfg.withInfo cfg.interval inp.now st.futures
        st.messages st.prevTime inp.doneTokens with
    | error pr =>
      obtain ⟨a, tr⟩ := pr
      rw [hd] at hdrain
      simp only [accOf] at hdrain
      simpa [hemp, hd] using hdrain
    | ok pr =>
      obtain ⟨a, tr⟩ := pr
      rw [hd] at hdrain
      simp only [accOf] at hdrain
      have hhk := houseKeeping_length parseRec cfg.longRecord cfg.maxWorkers inp.now
        inp.doneAtScan a.futures st.logCheckTime
      cases hh : houseKeeping parseRec cfg.longRecord cfg.maxWorkers inp.now inp.doneAtScan
          a.futures st.logCheckTime with
      | error pr2 =>
        obtain ⟨fs, lct, tr2⟩ := pr2
        rw [hh] at hhk
        dsimp only at hhk
        simp only [hemp, Bool.false_eq_true, if_false, hd, hh]
        omega
      | ok pr2 =>
        obtain ⟨fs, lct, tr2⟩ := pr2
        rw [hh] at hhk
        dsimp only at hhk
        simp only [hemp, Bool.false_eq_true, if_false, hd, hh]
        omega

/-- C1: Between iterations the registry never exceeds `max_workers +
prefetch`: provided the registry respects the budget at the top of an
iteration and the broker never returns more than the
`budget - len(futures)` messages requested of it, the registry still
respects the budget after the iteration — whether the iteration completes
or raises into the shutdown handler. -/
theorem registry_bounded (parseRec : String → Option Record) (engine : Record → EngineOutcome)
    (cfg : Config) (inp : IterInput) (st : LoopState)
    (hlen : st.futures.length ≤ cfg.maxWorkers + cfg.prefetch)
    (hfit : fetchFits (cfg.maxWorkers + cfg.prefetch)
      (preAdmissionFutures parseRec engine cfg inp st).length inp.batches = true) :
    (iterState (iterate parseRec engine cfg inp st)).futures.length ≤
      cfg.maxWorkers + cfg.prefetch := by
  set budget := cfg.maxWorkers + cfg.prefetch with hb
  by_cases hemp : st.futures.isEmpty
  · have hpre : preAdmissionFutures parseRec engine cfg inp st = st.futures := by
      simp [preAdmissionFutures, hemp]
    rw [hpre] at hfit
    have := admission_length_le budget st.messages inp.dispatchNow inp.batches st.nextTok
      st.futures hfit hlen
    simpa [iterate, hemp, iterState] using this
  · have hdrain := drainPhase_futures_le parseRec engine cfg.withInfo cfg.interval inp.now
      st.futures st.messages st.prevTime inp.doneTokens
    cases hd : drainPhase parseRec engine cfg.withInfo cfg.interval inp.now st.futures
        st.messages st.prevTime inp.doneTokens with
    | error pr =>
      obtain ⟨a, tr⟩ := pr
      rw [hd] at hdrain
      simp only [accOf] at hdrain
      simp only [iterate, hemp, Bool.false_eq_true, if_false, hd, iterState]
      omega
    | ok pr =>
      obtain ⟨a, tr⟩ := pr
      rw [hd] at hdrain
      simp only [accOf] at hdrain
      have hhk := houseKeeping_length parseRec cfg.longRecord cfg.maxWorkers inp.now
        inp.doneAtScan a.futures st.logCheckTime
      cases hh : houseKeeping parseRec cfg.longRecord cfg.maxWorkers inp.now inp.doneAtScan
          a.futures st.logCheckTime with
      | error pr2 =>
        obtain ⟨fs, lct, tr2⟩ := pr2
        rw [hh] at hhk
        dsimp only at hhk
        simp only [iterate, hemp, Bool.false_eq_true, if_false, hd, hh, iterState]
        omega
      | ok pr2 =>
        obtain ⟨fs, lct, tr2⟩ := pr2
        rw [hh] at hhk
        dsimp only at hhk
        have hpre : preAdmissionFutures parseRec engine cfg inp st = fs := by
          simp [preAdmissionFutures, hemp, hd, hh]
        rw [hpre] at hfit
        have hfs : fs.length ≤ budget := by omega
        have := admission_length_le budget a.messages inp.dispatchNow inp.batches st.nextTok
          fs hfit hfs
        simpa [iterate, hemp, hd, hh, iterState] using this

/-- Witness for C1 at a concrete input: two in-flight entries, budget 3,
one completion drained, one fetched batch of two messages. -/
theorem registry_bounded_witness :
    (iterState (iterate
      (fun s => if s = "x" then some { dataSource := "DS", recordId := "7" } else none)
      (fun _ => EngineOutcome.ok "")
      { maxWorkers := 2, prefetch := 1, longRecord := 300, interval := 10000, withInfo := false }
      { now := 9, doneTokens := [0], doneAtScan := [],
        batches := [[{ handleId := 5, body := "x" }, { handleId := 6, body := "x" }]],
        dispatchNow := 9, shutNow := 9, shutDone := [] }
      { futures := [(0, { msg := { handleId := 3, body := "x" }, startTime := 1, extended := 0 }),
                    (1, { msg := { handleId := 4, body := "x" }, startTime := 2, extended := 0 })],
        messages := 0, prevTime := 0, logCheckTime := 8, nextTok := 2 })).futures.length ≤ 3 := by
  exact registry_bounded _ _ _ _ _ (by decide) (by decide)

/-! ## C4: fetch-admission branches -/

/-- C4: The fetch-admission branches.  (i) When the registry has reached
`max_workers + prefetch`, the iteration sleeps one second and restarts the
loop without fetching (registry and token counter untouched, only the sleep
in the trace).  (ii) When the registry is under budget and the first fetch
returns an empty batch with an empty registry, the receiver is recycled and
the inner fetch loop exits (no dispatch, whatever responses would follow).
(iii) When the registry is under budget and non-empty and the fetch returns
an empty batch, the inner fetch loop exits without recycling. -/
theorem fetch_admission_branches (budget messages : ℕ) (d : ℤ) (batches : List (List Msg))
    (rest : List (List Msg)) (ntk : ℕ) (futures : List (ℕ × Entry)) :
    (budget ≤ futures.length →
      admission budget messages d batches ntk futures = (futures, ntk, [Act.sleep1])) ∧
    (futures.length < budget → futures = [] →
      admission budget messages d ([] :: rest) ntk futures =
        (futures, ntk, [Act.recycleReceiver, Act.processedTotalLine messages])) ∧
    (futures.length < budget → futures ≠ [] →
      admission budget messages d ([] :: rest) ntk futures =
        (futures, ntk, [Act.processedTotalLine messages])) := by
  refine ⟨?_, ?_, ?_⟩
  · intro h
    simp [admission, h]
  · intro h1 h2
    subst h2
    simp only [List.length_nil] at h1
    simp [admission, fetchLoop, h1, Nat.not_le.mpr h1]
  · intro h1 h2
    have hne : futures.length ≠ 0 := by
      intro h0
      exact h2 (List.length_eq_zero.mp h0)
    simp [admission, fetchLoop, h1, Nat.not_le.mpr h1, hne]

/-- Witness for C4: all three branches at concrete inputs (budget 2,
a saturated registry; an empty registry with an empty response; a singleton
registry with an empty response). -/
theorem fetch_admission_branches_witness :
    admission 1 5 0 [[{ handleId := 9, body := "z" }]] 10
        [(0, { msg := { handleId := 3, body := "z" }, startTime := 1, extended := 0 })] =
      ([(0, { msg := { handleId := 3, body := "z" }, startTime := 1, extended := 0 })], 10,
        [Act.sleep1]) ∧
    admission 2 5 0 [[]] 10 [] = ([], 10, [Act.recycleReceiver, Act.processedTotalLine 5]) ∧
    admission 2 5 0 [[]] 10
        [(0, { msg := { handleId := 3, body := "z" }, startTime := 1, extended := 0 })] =
      ([(0, { msg := { handleId := 3, body := "z" }, startTime := 1, extended := 0 })], 10,
        [Act.processedTotalLine 5]) := by
  refine ⟨?_, ?_, ?_⟩
  · exact (fetch_admission_branches 1 5 0 [[{ handleId := 9, body := "z" }]] [] 10
      [(0, { msg := { handleId := 3, body := "z" }, startTime := 1, extended := 0 })]).1
      (by decide)
  · exact (fetch_admission_branches 2 5 0 [[]] [] 10 []).2.1 (by decide) rfl
  · exact (fetch_admission_branches 2 5 0 [[]] [] 10
      [(0, { msg := { handleId := 3, body := "z" }, startTime := 1, extended := 0 })]).2.2
      (by decide) (by decide)

/-! ## C8: configuration resolution of the prefetch budget -/

/-- C8: Prefetch resolution.  If `SENZING_THREADS_PER_PROCESS` is unset or
zero, the prefetch budget is `min(32, cpu_count + 4)`; otherwise an unset
(or negative-sentinel) `SENZING_PREFETCH` resolves to `max_workers`, and a
non-negative `SENZING_PREFETCH` value is used as given. -/
theorem prefetch_resolution (threadsEnv prefetchEnv : Option ℤ) (cpu : ℕ) (w p : ℤ) :
    ((threadsEnv = none ∨ threadsEnv = some 0) →
      (resolveConfig threadsEnv prefetchEnv (some cpu)).2 = min 32 ((cpu : ℤ) + 4)) ∧
    (w ≠ 0 → (prefetchEnv.getD (-1) < 0 →
      (resolveConfig (some w) prefetchEnv (some cpu)).2 = w)) ∧
    (w ≠ 0 → 0 ≤ p → (resolveConfig (some w) (some p) (some cpu)).2 = p) := by
  refine ⟨?_, ?_, ?_⟩
  · rintro (rfl | rfl) <;> simp [resolveConfig]
  · intro hw hp
    simp [resolveConfig, hw, hp]
  · intro hw hp
    simp [resolveConfig, hw, not_lt.mpr hp]

/-- Witness for C8: threads unset with 8 CPUs; threads 4 with prefetch
unset; threads 4 with prefetch 7. -/
theorem prefetch_resolution_witness :
    (resolveConfig none none (some 8)).2 = min 32 ((8 : ℤ) + 4) ∧
    (resolveConfig (some 4) none (some 8)).2 = 4 ∧
    (resolveConfig (some 4) (some 7) (some 8)).2 = 7 := by
  refine ⟨?_, ?_, ?_⟩
  · exact (prefetch_resolution none none 8 1 1).1 (Or.inl rfl)
  · exact (prefetch_resolution none none 8 4 1).2.1 (by decide) (by decide)
  · exact (prefetch_resolution none (some 7) 8 4 7).2.2 (by decide) (by decide)

/-! ## C10: housekeeping only runs with a non-empty registry -/

lemma fetchLoop_trace_recycle (budget : ℕ) (d : ℤ) :
    ∀ (batches : List (List Msg)) (ntk : ℕ) (futures : List (ℕ × Entry)),
      ∀ a ∈ (fetchLoop budget d batches ntk futures).2.2, a = Act.recycleReceiver := by
  intro batches
  induction batches with
  | nil => intro ntk futures a ha; simp [fetchLoop] at ha
  | cons b rest ih =>
    intro ntk futures a ha
    by_cases h1 : futures.length < budget
    · by_cases h2 : b.isEmpty
      · simp only [fetchLoop, if_pos h1, h2, if_true] at ha
        split_ifs at ha
        · simpa using ha
        · simp at ha
      · simp only [fetchLoop, if_pos h1, h2, Bool.false_eq_true, if_false] at ha
        exact ih _ _ a ha
    · simp [fetchLoop, h1] at ha

lemma admission_trace_shape (budget messages : ℕ) (d : ℤ) (batches : List (List Msg))
    (ntk : ℕ) (futures : List (ℕ × Entry)) :
    ∀ a ∈ (admission budget messages d batches ntk futures).2.2,
      a = Act.sleep1 ∨ a = Act.recycleReceiver ∨ a = Act.processedTotalLine messages := by
  intro a ha
  unfold admission at ha
  split_ifs at ha with h
  · simp at ha
    exact Or.inl ha
  · simp only [List.mem_append] at ha
    rcases ha with ha | ha
    · exact Or.inr (Or.inl (fetchLoop_trace_recycle budget d batches ntk futures a ha))
    · simp at ha
      exact Or.inr (Or.inr ha)

/-- C10: The periodic housekeeping (engine stats dump and stuck scan with
lease renewals) is guarded by `if futures:`: in an iteration that starts
with an empty registry the iteration completes normally and its trace
contains no stats line and no lease renewal, whatever the clock says about
`log_check_time + long_record / 2`. -/
theorem no_housekeeping_when_registry_empty (parseRec : String → Option Record)
    (engine : Record → EngineOutcome) (cfg : Config) (inp : IterInput) (st : LoopState)
    (hemp : st.futures = []) :
    ∃ st2 tr, iterate parseRec engine cfg inp st = .ok (st2, tr) ∧
      ∀ a ∈ tr, isStatsLine a = false ∧ isRenew a = false := by
  have he : st.futures.isEmpty = true := by simp [hemp]
  simp only [iterate, he, if_true]
  refine ⟨_, _, rfl, ?_⟩
  intro a ha
  have h := admission_trace_shape (cfg.maxWorkers + cfg.prefetch) st.messages inp.dispatchNow
    inp.batches st.nextTok st.futures a ha
  rcases h with rfl | rfl | rfl <;> simp [isStatsLine, isRenew]

/-- Witness for C10: an empty registry with the clock far past the
housekeeping threshold. -/
theorem no_housekeeping_when_registry_empty_witness :
    ∃ st2 tr, iterate (fun _ => none) (fun _ => EngineOutcome.otherError)
      { maxWorkers := 2, prefetch := 1, longRecord := 300, interval := 10000, withInfo := false }
      { now := 100000, doneTokens := [], doneAtScan := [], batches := [[]],
        dispatchNow := 100000, shutNow := 100000, shutDone := [] }
      { futures := [], messages := 0, prevTime := 0, logCheckTime := 0, nextTok := 0 } =
        .ok (st2, tr) ∧
      ∀ a ∈ tr, isStatsLine a = false ∧ isRenew a = false := by
  exact no_housekeeping_when_registry_empty _ _ _ _ _ rfl

/-! ## C5 and C9: the stuck scan -/

lemma stuckLineIf_filter_renew (mw k : ℕ) : (stuckLineIf mw k).filter isRenew = [] := by
  unfold stuckLineIf
  split_ifs <;> simp [isRenew]

lemma stuckLineIf_filter_ext (mw k : ℕ) : (stuckLineIf mw k).filter isExtLine = [] := by
  unfold stuckLineIf
  split_ifs <;> simp [isExtLine]

lemma scanStuck_ok_map (p : String → Option Record) (LR : ℤ) (mw : ℕ) (now : ℤ)
    (done : List ℕ) :
    ∀ (fs : List (ℕ × Entry)) (ns : ℕ),
      (∀ te ∈ fs, isStuckEntry LR now done te = true → (p te.2.msg.body).isSome = true) →
      ∃ tr, scanStuck p LR mw now done fs ns = .ok (fs.map (bumpStuck LR now done), tr) ∧
        tr.filter isRenew =
          (fs.filter (isStuckEntry LR now done)).map (fun te => Act.renewLock te.2.msg) ∧
        tr.filter isExtLine =
          (fs.filter (isStuckEntry LR now done)).map
            (fun te => Act.extendedLine (recordOf p te.2.msg) (te.2.extended + 1)) := by
  intro fs
  induction fs with
  | nil =>
    intro ns _
    exact ⟨[], by simp [scanStuck], by simp, by simp⟩
  | cons te fs ih =>
    intro ns hp
    obtain ⟨t, e⟩ := te
    by_cases hs : isStuckEntry LR now done (t, e) = true
    · have hsome := hp (t, e) (by simp) hs
      obtain ⟨r, hr⟩ := Option.isSome_iff_exists.mp hsome
      obtain ⟨tr0, hrec, hren, hext⟩ := ih (ns + 1) (fun x hx h2 => hp x (by simp [hx]) h2)
      refine ⟨[Act.renewLock e.msg, Act.extendedLine r (e.extended + 1)] ++
        stuckLineIf mw (ns + 1) ++ tr0, ?_, ?_, ?_⟩
      · simp only [scanStuck, if_pos hs, hr, hrec]
        simp [bumpStuck, hs]
      · simp [List.filter_append, hren, stuckLineIf_filter_renew, isRenew, hs]
      · simp [List.filter_append, hext, stuckLineIf_filter_ext, isExtLine, hs,
          recordOf, hr]
    · obtain ⟨tr0, hrec, hren, hext⟩ := ih ns (fun x hx h2 => hp x (by simp [hx]) h2)
      refine ⟨stuckLineIf mw ns ++ tr0, ?_, ?_, ?_⟩
      · simp only [scanStuck, if_neg hs, hrec]
        simp [bumpStuck, hs]
      · simp [List.filter_append, hren, stuckLineIf_filter_renew, hs]
      · simp [List.filter_append, hext, stuckLineIf_filter_ext, hs]

/-- C5: When the periodic housekeeping runs (`now > log_check_time +
long_record/2`) and the payloads of the stuck entries parse, the stuck scan
selects exactly the not-yet-done entries whose age `now - start_time`
exceeds `long_record * (extensions + 1)` (the `isStuckEntry` predicate):
the registry is updated pointwise by `bumpStuck`, which increments exactly
the stuck entries' extension counts by one; the renew calls in the trace
are exactly one `renew_message_lock` per stuck entry in registry order; and
one extended-visibility line is emitted per stuck entry, after a leading
engine-stats dump. -/
theorem stuck_scan_spec (p : String → Option Record) (LR : ℤ) (mw : ℕ) (now : ℤ)
    (done : List ℕ) (fs : List (ℕ × Entry)) (lct : ℤ)
    (hc : lct + LR / 2 < now)
    (hp : ∀ te ∈ fs, isStuckEntry LR now done te = true → (p te.2.msg.body).isSome = true) :
    ∃ tr, houseKeeping p LR mw now done fs lct =
        .ok (fs.map (bumpStuck LR now done), now, Act.statsLine :: tr) ∧
      tr.filter isRenew =
        (fs.filter (isStuckEntry LR now done)).map (fun te => Act.renewLock te.2.msg) ∧
      tr.filter isExtLine =
        (fs.filter (isStuckEntry LR now done)).map
          (fun te => Act.extendedLine (recordOf p te.2.msg) (te.2.extended + 1)) := by
  obtain ⟨tr, hscan, hren, hext⟩ := scanStuck_ok_map p LR mw now done fs 0 hp
  exact ⟨tr, by simp [houseKeeping, hc, hscan], hren, hext⟩

/-- Witness for C5: two in-flight entries, one stuck (age 25 against
threshold `10 * 1`), one fresh; the stuck one is renewed and bumped. -/
theorem stuck_scan_spec_witness :
    ∃ tr, houseKeeping
        (fun s => if s = "b" then some { dataSource := "DS", recordId := "1" } else none)
        10 2 25 []
        [(0, { msg := { handleId := 0, body := "b" }, startTime := 0, extended := 0 }),
         (1, { msg := { handleId := 1, body := "b" }, startTime := 20, extended := 0 })]
        0 =
        .ok ([(0, { msg := { handleId := 0, body := "b" }, startTime := 0, extended := 1 }),
              (1, { msg := { handleId := 1, body := "b" }, startTime := 20, extended := 0 })],
          25, Act.statsLine :: tr) ∧
      tr.filter isRenew = [Act.renewLock { handleId := 0, body := "b" }] ∧
      tr.filter isExtLine =
        [Act.extendedLine { dataSource := "DS", recordId := "1" } 1] := by
  have h := stuck_scan_spec
    (fun s => if s = "b" then some { dataSource := "DS", recordId := "1" } else none)
    10 2 25 []
    [(0, { msg := { handleId := 0, body := "b" }, startTime := 0, extended := 0 }),
     (1, { msg := { handleId := 1, body := "b" }, startTime := 20, extended := 0 })]
    0 (by decide) (by decide)
  obtain ⟨tr, h1, h2, h3⟩ := h
  have hm : List.map (bumpStuck 10 25 [])
      [(0, { msg := { handleId := 0, body := "b" }, startTime := 0, extended := 0 }),
       (1, { msg := { handleId := 1, body := "b" }, startTime := 20, extended := 0 })] =
      [(0, { msg := { handleId := 0, body := "b" }, startTime := 0, extended := 1 }),
       (1, { msg := { handleId := 1, body := "b" }, startTime := 20, extended := 0 })] := by
    decide
  rw [hm] at h1
  exact ⟨tr, h1, h2.trans (by decide), h3.trans (by decide)⟩

/-- C9: Lease renewal is frame-preserving: whatever the stuck scan does
(including a scan cut short by an unparseable payload), every registry
entry keeps its token, its message handle and its dispatch `start_time`;
only the extension count can change, and then only by one.  An entry's age
is therefore always measured from its original dispatch time. -/
theorem renewal_preserves_entry (p : String → Option Record) (LR : ℤ) (mw : ℕ)
    (now : ℤ) (done : List ℕ) :
    ∀ (fs : List (ℕ × Entry)) (ns : ℕ),
      List.Forall₂ (fun te te2 => te2.1 = te.1 ∧ te2.2.msg = te.2.msg ∧
          te2.2.startTime = te.2.startTime ∧
          (te2.2.extended = te.2.extended ∨ te2.2.extended = te.2.extended + 1))
        fs (scanOut (scanStuck p LR mw now done fs ns)).1 := by
  intro fs
  induction fs with
  | nil => intro ns; simp [scanStuck, scanOut]
  | cons te fs ih =>
    intro ns
    obtain ⟨t, e⟩ := te
    by_cases hs : isStuckEntry LR now done (t, e) = true
    · cases hr : p e.msg.body with
      | none =>
        simp only [scanStuck, if_pos hs, hr, scanOut]
        exact List.Forall₂.cons (by simp) (List.forall₂_same.mpr (fun x _ => by simp))
      | some r =>
        have h := ih (ns + 1)
        cases hrec : scanStuck p LR mw now done fs (ns + 1) with
        | ok pr =>
          obtain ⟨fs2, tr⟩ := pr
          rw [hrec] at h
          simp only [scanOut] at h
          simp only [scanStuck, if_pos hs, hr, hrec, scanOut]
          exact List.Forall₂.cons (by simp) h
        | error pr =>
          obtain ⟨fs2, tr⟩ := pr
          rw [hrec] at h
          simp only [scanOut] at h
          simp only [scanStuck, if_pos hs, hr, hrec, scanOut]
          exact List.Forall₂.cons (by simp) h
    · have h := ih ns
      cases hrec : scanStuck p LR mw now done fs ns with
      | ok pr =>
        obtain ⟨fs2, tr⟩ := pr
        rw [hrec] at h
        simp only [scanOut] at h
        simp only [scanStuck, if_neg hs, hrec, scanOut]
        exact List.Forall₂.cons (by simp) h
      | error pr =>
        obtain ⟨fs2, tr⟩ := pr
        rw [hrec] at h
        simp only [scanOut] at h
        simp only [scanStuck, if_neg hs, hrec, scanOut]
        exact List.Forall₂.cons (by simp) h

/-! ## C6: shutdown path -/

lemma stillReport_ok (p : String → Option Record) (now : ℤ) (doneNow : List ℕ) :
    ∀ (fs : List (ℕ × Entry)),
      (∀ te ∈ fs, te.1 ∉ doneNow → (p te.2.msg.body).isSome = true) →
      stillReport p now doneNow fs =
        .ok ((fs.filter (fun te => te.1 ∉ doneNow)).map
          (fun te => Act.stillProcessing (recordOf p te.2.msg) (now - te.2.startTime))) := by
  intro fs
  induction fs with
  | nil => intro _; simp [stillReport]
  | cons te fs ih =>
    intro hp
    obtain ⟨t, e⟩ := te
    have hrec := ih (fun x hx => hp x (by simp [hx]))
    by_cases ht : t ∈ doneNow
    · simp [stillReport, ht, hrec]
    · have hsome := hp (t, e) (by simp) ht
      obtain ⟨r, hr⟩ := Option.isSome_iff_exists.mp hsome
      simp [stillReport, ht, hr, hrec, recordOf]

/-- C6: On an unhandled error inside the main loop, provided the payloads
of the still-outstanding entries parse, the process trace continues with
the shutting-down line, then exactly one still-processing line per
outstanding not-done entry carrying its record identifiers and its elapsed
time, then the worker-pool shutdown and a `-1` (nonzero) exit; and the
shutdown sequence issues no ack. -/
theorem shutdown_report (parseRec : String → Option Record) (engine : Record → EngineOutcome)
    (cfg : Config) (inp : IterInput) (st st2 : LoopState) (tr0 : List Act)
    (herr : iterate parseRec engine cfg inp st = .error (st2, tr0))
    (hp : ∀ te ∈ st2.futures, te.1 ∉ inp.shutDone →
      (parseRec te.2.msg.body).isSome = true) :
    runStep parseRec engine cfg inp st =
      tr0 ++ (Act.shutdownErrLine ::
        ((st2.futures.filter (fun te => te.1 ∉ inp.shutDone)).map
          (fun te => Act.stillProcessing (recordOf parseRec te.2.msg)
            (inp.shutNow - te.2.startTime)) ++
         [Act.shutdownPool, Act.exitCode (-1)])) ∧
    ∀ m, Act.complete m ∉ shutdownSeq parseRec inp.shutNow inp.shutDone st2.futures := by
  have hrep := stillReport_ok parseRec inp.shutNow inp.shutDone st2.futures hp
  constructor
  · simp [runStep, herr, shutdownSeq, hrep]
  · intro m hm
    simp [shutdownSeq, hrep] at hm

/-- Witness for C6: two entries in flight, the drained one raises an
unclassified error; the remaining entry is reported with its identifiers
and elapsed time, the pool is shut down, the exit code is `-1`, and no ack
appears in the shutdown sequence. -/
theorem shutdown_report_witness :
    runStep (fun s => if s = "b" then some { dataSource := "DS", recordId := "2" } else none)
        (fun _ => EngineOutcome.otherError)
        { maxWorkers := 2, prefetch := 1, longRecord := 300, interval := 10000,
          withInfo := false }
        { now := 8, doneTokens := [0], doneAtScan := [], batches := [],
          dispatchNow := 8, shutNow := 8, shutDone := [] }
        { futures := [(0, { msg := { handleId := 3, body := "b" }, startTime := 1, extended := 0 }),
                      (1, { msg := { handleId := 4, body := "b" }, startTime := 2, extended := 0 })],
          messages := 0, prevTime := 0, logCheckTime := 8, nextTok := 2 } =
      [Act.shutdownErrLine,
       Act.stillProcessing { dataSource := "DS", recordId := "2" } 6,
       Act.shutdownPool, Act.exitCode (-1)] ∧
    ∀ m, Act.complete m ∉ shutdownSeq
      (fun s => if s = "b" then some { dataSource := "DS", recordId := "2" } else none) 8 []
      [(1, { msg := { handleId := 4, body := "b" }, startTime := 2, extended := 0 })] := by
  have h := shutdown_report
    (fun s => if s = "b" then some { dataSource := "DS", recordId := "2" } else none)
    (fun _ => EngineOutcome.otherError)
    { maxWorkers := 2, prefetch := 1, longRecord := 300, interval := 10000, withInfo := false }
    { now := 8, doneTokens := [0], doneAtScan := [], batches := [],
      dispatchNow := 8, shutNow := 8, shutDone := [] }
    { futures := [(0, { msg := { handleId := 3, body := "b" }, startTime := 1, extended := 0 }),
                  (1, { msg := { handleId := 4, body := "b" }, startTime := 2, extended := 0 })],
      messages := 0, prevTime := 0, logCheckTime := 8, nextTok := 2 }
    { futures := [(1, { msg := { handleId := 4, body := "b" }, startTime := 2, extended := 0 })],
      messages := 0, prevTime := 0, logCheckTime := 8, nextTok := 2 }
    [] rfl (by decide)
  exact ⟨h.1.trans (by decide), h.2⟩

/-! ## C7: the messages counter and the rate lines -/

lemma afterAck_eq (I : ℕ) (now : ℤ) (m : Msg) (acc : DrainAcc) :
    afterAck I now m acc =
      (⟨acc.futures, acc.messages + 1,
        (if (acc.messages + 1) % I = 0 then now else acc.prevTime),
        (if acc.deleteCnt + 1 = 10 then [] else acc.deleteBatch ++ [m]),
        (if acc.deleteCnt + 1 = 10 then 0 else acc.deleteCnt + 1)⟩,
       (if acc.deleteCnt + 1 = 10 then (acc.deleteBatch ++ [m]).map Act.complete else []) ++
         (if (acc.messages + 1) % I = 0 then
            [Act.rateLine (acc.messages + 1) (rateSpeed I (now - acc.prevTime))]
          else [])) := by
  unfold afterAck
  dsimp only
  split_ifs <;> simp

lemma filter_rate_complete (ms : List Msg) :
    (ms.map Act.complete).filter isRateLine = [] := by
  induction ms with
  | nil => rfl
  | cons m ms ih => simp [isRateLine, ih]

lemma rateCount_zero_not_mem {tr : List Act} (h : rateCount tr = 0) (c : ℕ) (sp : ℤ) :
    Act.rateLine c sp ∉ tr := by
  intro hm
  have : Act.rateLine c sp ∈ tr.filter isRateLine := by
    simp [List.mem_filter, hm, isRateLine]
  rw [List.length_eq_zero.mp h] at this
  simp at this

lemma drainOne_count (p : String → Option Record) (eng : Record → EngineOutcome)
    (i : Bool) (I : ℕ) (now : ℤ) (acc : DrainAcc) (t : ℕ) (e : Entry)
    (rest : List (ℕ × Entry)) (a : DrainAcc) (tr : List Act)
    (hpop : popToken t acc.futures = some (e, rest))
    (hok : drainOne p eng i I now acc t = .ok (a, tr)) :
    a.futures = rest ∧
    a.messages = acc.messages + 1 ∧
    tr.filter isRateLine =
      (if (acc.messages + 1) % I = 0 then
        [Act.rateLine (acc.messages + 1) (rateSpeed I (now - acc.prevTime))] else []) ∧
    a.prevTime = (if (acc.messages + 1) % I = 0 then now else acc.prevTime) := by
  unfold drainOne at hok
  rw [hpop] at hok
  dsimp only at hok
  cases hpm : process_msg p eng e.msg i with
  | ok res =>
    rw [hpm] at hok
    simp only [afterAck_eq] at hok
    obtain ⟨rfl, rfl⟩ := by
      simpa only [Except.ok.injEq, Prod.mk.injEq] using hok.symm
    refine ⟨rfl, rfl, ?_, rfl⟩
    cases res with
    | none => simp [List.filter_append, filter_rate_complete, isRateLine]
              <;> split_ifs <;> simp [isRateLine]
    | some s =>
      by_cases hs : s = "" <;>
        · simp only [hs]
          simp [List.filter_append, filter_rate_complete, isRateLine]
          <;> split_ifs <;> simp [isRateLine]
  | error err =>
    rw [hpm] at hok
    cases err with
    | szBadInput =>
      unfold drainDeadLetter at hok
      cases hr : p e.msg.body with
      | none => rw [hr] at hok; cases hok
      | some r =>
        rw [hr] at hok
        simp only [afterAck_eq] at hok
        obtain ⟨rfl, rfl⟩ := by
          simpa only [Except.ok.injEq, Prod.mk.injEq] using hok.symm
        refine ⟨rfl, rfl, ?_, rfl⟩
        simp [List.filter_append, filter_rate_complete, isRateLine]
        <;> split_ifs <;> simp [isRateLine]
    | szRetryTimeout =>
      unfold drainDeadLetter at hok
      cases hr : p e.msg.body with
      | none => rw [hr] at hok; cases hok
      | some r =>
        rw [hr] at hok
        simp only [afterAck_eq] at hok
        obtain ⟨rfl, rfl⟩ := by
          simpa only [Except.ok.injEq, Prod.mk.injEq] using hok.symm
        refine ⟨rfl, rfl, ?_, rfl⟩
        simp [List.filter_append, filter_rate_complete, isRateLine]
        <;> split_ifs <;> simp [isRateLine]
    | other => cases hok

lemma rateCount_append (tr1 tr2 : List Act) :
    rateCount (tr1 ++ tr2) = rateCount tr1 + rateCount tr2 := by
  simp [rateCount, List.filter_append]

lemma drainList_count (p : String → Option Record) (eng : Record → EngineOutcome)
    (i : Bool) (I : ℕ) (now : ℤ) (hI : 0 < I) :
    ∀ (done : List ℕ) (acc : DrainAcc) (a : DrainAcc) (tr : List Act),
      doneOk done acc.futures = true →
      drainList p eng i I now done acc = .ok (a, tr) →
      a.messages = acc.messages + done.length ∧
      rateCount tr = (acc.messages + done.length) / I - acc.messages / I ∧
      (rateCount tr = 0 → a.prevTime = acc.prevTime) ∧
      (0 < rateCount tr → a.prevTime = now) ∧
      (∀ c sp, Act.rateLine c sp ∈ tr → c % I = 0) ∧
      ((acc.messages + done.length) / I - acc.messages / I ≤ 1 →
        ∀ c sp, Act.rateLine c sp ∈ tr → sp = rateSpeed I (now - acc.prevTime)) := by
  intro done
  induction done with
  | nil =>
    intro acc a tr _ hok
    simp only [drainList, Except.ok.injEq, Prod.mk.injEq] at hok
    obtain ⟨rfl, rfl⟩ := hok
    refine ⟨by simp, by simp [rateCount], fun _ => rfl, by simp [rateCount], by simp, ?_⟩
    intro _ c sp hm
    simp at hm
  | cons t ts ih =>
    intro acc a tr hdone hok
    simp only [doneOk] at hdone
    cases hpop : popToken t acc.futures with
    | none => rw [hpop] at hdone; cases hdone
    | some pr =>
      obtain ⟨e, rest⟩ := pr
      rw [hpop] at hdone
      dsimp only at hdone
      simp only [drainList] at hok
      cases h1 : drainOne p eng i I now acc t with
      | error r => rw [h1] at hok; cases hok
      | ok pr1 =>
        obtain ⟨a1, tr1⟩ := pr1
        rw [h1] at hok
        dsimp only at hok
        cases h2 : drainList p eng i I now ts a1 with
        | error r => rw [h2] at hok; cases hok
        | ok pr2 =>
          obtain ⟨a2, tr2⟩ := pr2
          rw [h2] at hok
          simp only [Except.ok.injEq, Prod.mk.injEq] at hok
          obtain ⟨rfl, rfl⟩ := hok
          obtain ⟨hfut1, hmsg1, hfilter1, hprev1⟩ :=
            drainOne_count p eng i I now acc t e rest a1 tr1 hpop h1
          have hdone2 : doneOk ts a1.futures = true := by rw [hfut1]; exact hdone
          obtain ⟨hmsg2, hcnt2, hprevz2, hprevp2, hmod2, hspeed2⟩ :=
            ih a1 a2 tr2 hdone2 h2
          rw [hmsg1] at hmsg2 hcnt2 hspeed2
          have hd : (acc.messages + 1) / I =
              acc.messages / I + (if (acc.messages + 1) % I = 0 then 1 else 0) := by
            rw [Nat.succ_div]
            congr 1
            simp only [Nat.dvd_iff_mod_eq_zero]
          have hmono : (acc.messages + 1) / I ≤ (acc.messages + 1 + ts.length) / I :=
            Nat.div_le_div_right (by omega)
          have hcnt1 : rateCount tr1 = (if (acc.messages + 1) % I = 0 then 1 else 0) := by
            rw [rateCount, hfilter1]
            split_ifs <;> simp
          have hc : rateCount (tr1 ++ tr2) =
              (acc.messages + (ts.length + 1)) / I - acc.messages / I := by
            rw [rateCount_append, hcnt1, hcnt2]
            have heq2 : acc.messages + (ts.length + 1) = acc.messages + 1 + ts.length := by
              omega
            rw [heq2]
            split_ifs at hd ⊢ <;> omega
          refine ⟨by simp only [List.length_cons]; omega, by simpa using hc, ?_, ?_, ?_, ?_⟩
          · intro hz
            rw [rateCount_append] at hz
            have hz1 : rateCount tr1 = 0 := by omega
            have hz2 : rateCount tr2 = 0 := by omega
            rw [hcnt1] at hz1
            have hcond : ¬(acc.messages + 1) % I = 0 := by
              intro hcond
              rw [if_pos hcond] at hz1
              exact one_ne_zero hz1
            rw [hprevz2 hz2, hprev1, if_neg hcond]
          · intro hpos
            rw [rateCount_append] at hpos
            by_cases hz2 : rateCount tr2 = 0
            · have hp1 : 0 < rateCount tr1 := by omega
              rw [hcnt1] at hp1
              have hcond : (acc.messages + 1) % I = 0 := by
                by_contra hcond
                rw [if_neg hcond] at hp1
                exact absurd hp1 (lt_irrefl 0)
              rw [hprevz2 hz2, hprev1, if_pos hcond]
            · exact hprevp2 (by omega)
          · intro c sp hm
            rcases List.mem_append.mp hm with hm | hm
            · have hmem : Act.rateLine c sp ∈ tr1.filter isRateLine := by
                simp [List.mem_filter, hm, isRateLine]
              rw [hfilter1] at hmem
              split_ifs at hmem with hcond
              · simp at hmem
                obtain ⟨rfl, -⟩ := hmem
                exact hcond
              · simp at hmem
            · exact hmod2 c sp hm
          · intro hle c sp hm
            simp only [List.length_cons] at hle
            have hle2 : acc.messages + (ts.length + 1) = acc.messages + 1 + ts.length := by
              omega
            rw [hle2] at hle
            rcases List.mem_append.mp hm with hm | hm
            · have hmem : Act.rateLine c sp ∈ tr1.filter isRateLine := by
                simp [List.mem_filter, hm, isRateLine]
              rw [hfilter1] at hmem
              split_ifs at hmem with hcond
              · simp at hmem
                obtain ⟨-, rfl⟩ := hmem
                rfl
              · simp at hmem
            · -- the tail emitted this line; show the head emitted none
              by_cases hcond : (acc.messages + 1) % I = 0
              · -- head emitted one, so the tail emitted none: contradiction
                have hz2 : (acc.messages + 1 + ts.length) / I - (acc.messages + 1) / I = 0 := by
                  split_ifs at hd <;> omega
                have hzc : rateCount tr2 = 0 := by rw [hcnt2, hz2]
                exact absurd hm (rateCount_zero_not_mem hzc c sp)
              · have hsp := hspeed2 (by split_ifs at hd <;> omega) c sp hm
                rw [hsp, hprev1, if_neg hcond]

/-- C7: Rate accounting over a drain of `done.length` completions that
finishes without a raise (tokens as returned by `wait`: distinct and
registered).  The `messages` counter increments by exactly one per drained
completion; the number of emitted rate lines is exactly
`(messages + n) / interval - messages / interval` (so, starting from zero,
after `k * interval` drained messages exactly `k` rate lines have been
emitted); every rate line is emitted at a multiple of `interval`;
`prev_time` is reset to the drain clock `now` exactly when a line is
emitted; and when at most one line is emitted it reports
`speed = interval / (now - prev_time)` (the `-1` sentinel replacing a
non-positive elapsed time). -/
theorem rate_stats_spec (parseRec : String → Option Record) (engine : Record → EngineOutcome)
    (info : Bool) (interval : ℕ) (now : ℤ) (futures : List (ℕ × Entry))
    (messages : ℕ) (prevTime : ℤ) (done : List ℕ) (a : DrainAcc) (tr : List Act)
    (hI : 0 < interval)
    (hdone : doneOk done futures = true)
    (hok : drainPhase parseRec engine info interval now futures messages prevTime done =
      .ok (a, tr)) :
    a.messages = messages + done.length ∧
    rateCount tr = (messages + done.length) / interval - messages / interval ∧
    (∀ c sp, Act.rateLine c sp ∈ tr → c % interval = 0) ∧
    (rateCount tr = 0 → a.prevTime = prevTime) ∧
    (0 < rateCount tr → a.prevTime = now) ∧
    ((messages + done.length) / interval - messages / interval ≤ 1 →
      ∀ c sp, Act.rateLine c sp ∈ tr → sp = rateSpeed interval (now - prevTime)) := by
  unfold drainPhase at hok
  cases hd : drainList parseRec engine info interval now done
      (initAcc futures messages prevTime) with
  | error r => rw [hd] at hok; cases hok
  | ok pr =>
    obtain ⟨a0, tr0⟩ := pr
    rw [hd] at hok
    simp only [Except.ok.injEq, Prod.mk.injEq] at hok
    obtain ⟨rfl, rfl⟩ := hok
    obtain ⟨h1, h2, h3, h4, h5, h6⟩ := drainList_count parseRec engine info interval now hI
      done (initAcc futures messages prevTime) a0 tr0 hdone hd
    simp only [initAcc] at h1 h2 h3 h4 h5 h6
    have hflush : rateCount (flushTrace a0) = 0 := by
      simp [flushTrace, rateCount, filter_rate_complete]
    have hmemflush : ∀ c sp, Act.rateLine c sp ∈ flushTrace a0 → False := by
      intro c sp hm
      exact rateCount_zero_not_mem hflush c sp hm
    refine ⟨h1, ?_, ?_, ?_, ?_, ?_⟩
    · rw [rateCount_append, hflush, h2]
      omega
    · intro c sp hm
      rcases List.mem_append.mp hm with hm | hm
      · exact h5 c sp hm
      · exact absurd hm (fun h => hmemflush c sp h)
    · intro hz
      rw [rateCount_append, hflush] at hz
      exact h3 (by omega)
    · intro hp
      rw [rateCount_append, hflush] at hp
      exact h4 (by omega)
    · intro hle c sp hm
      rcases List.mem_append.mp hm with hm | hm
      · exact h6 hle c sp hm
      · exact absurd hm (fun h => hmemflush c sp h)

/-- Witness for C7: interval 1 from a zero counter, two drained
completions: two rate lines (k = 2 at k·interval = 2), and with interval 3
one completion emits no line. -/
theorem rate_stats_spec_witness :
    (∃ a tr, drainPhase (fun _ => some { dataSource := "D", recordId := "r" })
        (fun _ => EngineOutcome.ok "") false 1 7
        [(0, { msg := { handleId := 0, body := "b" }, startTime := 0, extended := 0 }),
         (1, { msg := { handleId := 1, body := "b" }, startTime := 0, extended := 0 })]
        0 2 [0, 1] = .ok (a, tr) ∧
      a.messages = 0 + 2 ∧ rateCount tr = (0 + 2) / 1 - 0 / 1 ∧
      (0 < rateCount tr → a.prevTime = 7)) := by
  have h := rate_stats_spec (fun _ => some { dataSource := "D", recordId := "r" })
    (fun _ => EngineOutcome.ok "") false 1 7
    [(0, { msg := { handleId := 0, body := "b" }, startTime := 0, extended := 0 }),
     (1, { msg := { handleId := 1, body := "b" }, startTime := 0, extended := 0 })]
    0 2 [0, 1] _ _ (by decide) (by decide) rfl
  exact ⟨_, _, rfl, h.1, h.2.1, h.2.2.2.2.1⟩

/-! ## C2 and C3: dead-letter ordering and unclassified-error propagation -/

lemma popToken_sublist {tok : ℕ} :
    ∀ {fs : List (ℕ × Entry)} {e rest}, popToken tok fs = some (e, rest) →
      rest.Sublist fs := by
  intro fs
  induction fs with
  | nil => intro e rest h; simp [popToken] at h
  | cons te fs ih =>
    intro e rest h
    obtain ⟨t, e0⟩ := te
    simp only [popToken] at h
    split_ifs at h with ht
    · simp only [Option.some.injEq, Prod.mk.injEq] at h
      obtain ⟨-, rfl⟩ := h
      exact List.sublist_cons_self _ _
    · split at h
      · exact absurd h (by simp)
      · next e2 rest2 hrec =>
        simp only [Option.some.injEq, Prod.mk.injEq] at h
        obtain ⟨-, rfl⟩ := h
        exact List.Sublist.cons₂ _ (ih hrec)

lemma popToken_mem_of_ne {tok : ℕ} :
    ∀ {fs : List (ℕ × Entry)} {e rest} {te : ℕ × Entry},
      popToken tok fs = some (e, rest) → te ∈ fs → te.1 ≠ tok → te ∈ rest := by
  intro fs
  induction fs with
  | nil => intro e rest te h; simp [popToken] at h
  | cons hd fs ih =>
    intro e rest te h hmem hne
    obtain ⟨t, e0⟩ := hd
    simp only [popToken] at h
    split_ifs at h with ht
    · simp only [Option.some.injEq, Prod.mk.injEq] at h
      obtain ⟨-, rfl⟩ := h
      rcases List.mem_cons.mp hmem with rfl | hmem
      · exact absurd ht (by simpa using hne)
      · exact hmem
    · split at h
      · exact absurd h (by simp)
      · next e2 rest2 hrec =>
        simp only [Option.some.injEq, Prod.mk.injEq] at h
        obtain ⟨he2, rfl⟩ := h
        rcases List.mem_cons.mp hmem with rfl | hmem
        · exact List.mem_cons_self _ _
        · exact List.mem_cons_of_mem _ (ih (by rw [hrec, he2]) hmem hne)

lemma popToken_of_mem_nodup {tok : ℕ} {e : Entry} :
    ∀ {fs : List (ℕ × Entry)}, (fs.map Prod.fst).Nodup → (tok, e) ∈ fs →
      ∃ rest, popToken tok fs = some (e, rest) := by
  intro fs
  induction fs with
  | nil => intro _ h; simp at h
  | cons hd fs ih =>
    intro hnd hmem
    obtain ⟨t, e0⟩ := hd
    simp only [List.map_cons, List.nodup_cons] at hnd
    obtain ⟨hnotin, hnd2⟩ := hnd
    by_cases ht : t = tok
    · subst ht
      rcases List.mem_cons.mp hmem with heq | hmem
      · simp only [Prod.mk.injEq] at heq
        obtain ⟨-, rfl⟩ := heq
        exact ⟨fs, by simp [popToken]⟩
      · exact absurd (List.mem_map_of_mem Prod.fst hmem) (by simpa using hnotin)
    · rcases List.mem_cons.mp hmem with heq | hmem
      · simp only [Prod.mk.injEq] at heq
        exact absurd heq.1.symm ht
      · obtain ⟨rest2, hrec⟩ := ih hnd2 hmem
        exact ⟨(t, e0) :: rest2, by simp [popToken, ht, hrec]⟩

lemma process_msg_classified_parse {p : String → Option Record}
    {eng : Record → EngineOutcome} {m : Msg} {i : Bool}
    (h : process_msg p eng m i = .error .szBadInput ∨
      process_msg p eng m i = .error .szRetryTimeout) :
    ∃ r, p m.body = some r := by
  unfold process_msg at h
  cases hp : p m.body with
  | none => rw [hp] at h; rcases h with h | h <;> cases h
  | some r => exact ⟨r, rfl⟩

lemma stillReport_members (p : String → Option Record) (now : ℤ) (doneNow : List ℕ) :
    ∀ (l : List (ℕ × Entry)) (tr : List Act),
      (stillReport p now doneNow l = .ok tr ∨ stillReport p now doneNow l = .error tr) →
      ∀ b ∈ tr, ∃ r el, b = Act.stillProcessing r el := by
  intro l
  induction l with
  | nil =>
    intro tr h b hb
    rcases h with h | h
    · simp only [stillReport, Except.ok.injEq] at h
      subst h
      simp at hb
    · simp only [stillReport] at h
      cases h
  | cons hd l ih =>
    intro tr h b hb
    obtain ⟨t, e⟩ := hd
    by_cases ht : t ∈ doneNow
    · rcases h with h | h
      · simp only [stillReport, if_pos ht] at h
        exact ih tr (Or.inl h) b hb
      · simp only [stillReport, if_pos ht] at h
        exact ih tr (Or.inr h) b hb
    · cases hr : p e.msg.body with
      | none =>
        rcases h with h | h
        · simp only [stillReport, if_neg ht, hr] at h
          cases h
        · simp only [stillReport, if_neg ht, hr, Except.error.injEq] at h
          subst h
          simp at hb
      | some r =>
        rcases h with h | h
        · simp only [stillReport, if_neg ht, hr] at h
          cases hrec : stillReport p now doneNow l with
          | ok tr2 =>
            rw [hrec] at h
            simp only [Except.ok.injEq] at h
            subst h
            rcases List.mem_cons.mp hb with rfl | hb
            · exact ⟨r, now - e.startTime, rfl⟩
            · exact ih tr2 (Or.inl hrec) b hb
          | error tr2 => rw [hrec] at h; cases h
        · simp only [stillReport, if_neg ht, hr] at h
          cases hrec : stillReport p now doneNow l with
          | ok tr2 => rw [hrec] at h; cases h
          | error tr2 =>
            rw [hrec] at h
            simp only [Except.error.injEq] at h
            subst h
            rcases List.mem_cons.mp hb with rfl | hb
            · exact ⟨r, now - e.startTime, rfl⟩
            · exact ih tr2 (Or.inr hrec) b hb

lemma shutdownSeq_members (p : String → Option Record) (now : ℤ) (doneNow : List ℕ)
    (fs : List (ℕ × Entry)) :
    ∀ a ∈ shutdownSeq p now doneNow fs,
      a = Act.shutdownErrLine ∨ (∃ r el, a = Act.stillProcessing r el) ∨
        a = Act.shutdownPool ∨ a = Act.exitCode (-1) := by
  intro a ha
  unfold shutdownSeq at ha
  rcases List.mem_cons.mp ha with rfl | ha
  · exact Or.inl rfl
  · cases hrep : stillReport p now doneNow fs with
    | ok tr =>
      rw [hrep] at ha
      rcases List.mem_append.mp ha with ha | ha
      · exact Or.inr (Or.inl (stillReport_members p now doneNow fs tr (Or.inl hrep) a ha))
      · rcases List.mem_cons.mp ha with rfl | ha
        · exact Or.inr (Or.inr (Or.inl rfl))
        · simp at ha
          subst ha
          exact Or.inr (Or.inr (Or.inr rfl))
    | error tr =>
      rw [hrep] at ha
      rcases List.mem_append.mp ha with ha | ha
      · exact Or.inr (Or.inl (stillReport_members p now doneNow fs tr (Or.inr hrep) a ha))
      · simp at ha
        subst ha
        exact Or.inr (Or.inr (Or.inr rfl))

lemma shutdownSeq_no_msg_actions (p : String → Option Record) (now : ℤ)
    (doneNow : List ℕ) (fs : List (ℕ × Entry)) (m : Msg) :
    Act.complete m ∉ shutdownSeq p now doneNow fs ∧
    Act.deadLetter m ∉ shutdownSeq p now doneNow fs := by
  constructor <;>
  · intro hmem
    rcases shutdownSeq_members p now doneNow fs _ hmem with h | ⟨r, el, h⟩ | h | h <;>
      cases h

lemma drainOne_ok_actions (p : String → Option Record) (eng : Record → EngineOutcome)
    (i : Bool) (I : ℕ) (now : ℤ) (acc : DrainAcc) (t : ℕ) (e1 : Entry)
    (rest : List (ℕ × Entry)) (a1 : DrainAcc) (tr1 : List Act)
    (hpop : popToken t acc.futures = some (e1, rest))
    (hok : drainOne p eng i I now acc t = .ok (a1, tr1)) :
    a1.futures = rest ∧
    (∀ m, Act.complete m ∈ tr1 → m ∈ acc.deleteBatch ∨ m = e1.msg) ∧
    (∀ m, Act.deadLetter m ∈ tr1 → m = e1.msg) ∧
    (∀ m, m ∈ a1.deleteBatch → m ∈ acc.deleteBatch ∨ m = e1.msg) ∧
    (∀ m, m ∈ acc.deleteBatch → Act.complete m ∈ tr1 ∨ m ∈ a1.deleteBatch) := by
  unfold drainOne at hok
  rw [hpop] at hok
  dsimp only at hok
  cases hpm : process_msg p eng e1.msg i with
  | ok res =>
    rw [hpm] at hok
    simp only [afterAck_eq] at hok
    obtain ⟨rfl, rfl⟩ := by
      simpa only [Except.ok.injEq, Prod.mk.injEq] using hok.symm
    cases res with
    | none =>
      split_ifs with hf hr <;>
        refine ⟨rfl, ?_, ?_, ?_, ?_⟩ <;> intro m hm <;> simp_all
    | some s =>
      by_cases hs : s = "" <;>
        (split_ifs with hf hr <;>
          refine ⟨rfl, ?_, ?_, ?_, ?_⟩ <;> intro m hm <;> simp_all)
  | error err =>
    cases err with
    | szBadInput =>
      rw [hpm] at hok
      unfold drainDeadLetter at hok
      cases hr : p e1.msg.body with
      | none => rw [hr] at hok; cases hok
      | some r =>
        rw [hr] at hok
        simp only [afterAck_eq] at hok
        obtain ⟨rfl, rfl⟩ := by
          simpa only [Except.ok.injEq, Prod.mk.injEq] using hok.symm
        split_ifs with hf hr2 <;>
          refine ⟨rfl, ?_, ?_, ?_, ?_⟩ <;> intro m hm <;> simp_all
    | szRetryTimeout =>
      rw [hpm] at hok
      unfold drainDeadLetter at hok
      cases hr : p e1.msg.body with
      | none => rw [hr] at hok; cases hok
      | some r =>
        rw [hr] at hok
        simp only [afterAck_eq] at hok
        obtain ⟨rfl, rfl⟩ := by
          simpa only [Except.ok.injEq, Prod.mk.injEq] using hok.symm
        split_ifs with hf hr2 <;>
          refine ⟨rfl, ?_, ?_, ?_, ?_⟩ <;> intro m hm <;> simp_all
    | other => rw [hpm] at hok; cases hok

lemma popToken_mem_self {tok : ℕ} :
    ∀ {fs : List (ℕ × Entry)} {e rest}, popToken tok fs = some (e, rest) → (tok, e) ∈ fs := by
  intro fs
  induction fs with
  | nil => intro e rest h; simp [popToken] at h
  | cons hd fs ih =>
    intro e rest h
    obtain ⟨t, e0⟩ := hd
    simp only [popToken] at h
    split_ifs at h with ht
    · simp only [Option.some.injEq, Prod.mk.injEq] at h
      obtain ⟨rfl, -⟩ := h
      subst ht
      exact List.mem_cons_self _ _
    · split at h
      · exact absurd h (by simp)
      · next e2 rest2 hrec =>
        simp only [Option.some.injEq, Prod.mk.injEq] at h
        obtain ⟨rfl, -⟩ := h
        exact List.mem_cons_of_mem _ (ih hrec)

lemma drainOne_error_trace (p : String → Option Record) (eng : Record → EngineOutcome)
    (i : Bool) (I : ℕ) (now : ℤ) (acc : DrainAcc) (t : ℕ) (a0 : DrainAcc) (tr0 : List Act)
    (herr : drainOne p eng i I now acc t = .error (a0, tr0)) :
    tr0 = [] ∨ tr0 = [Act.errPrint] := by
  unfold drainOne at herr
  cases hpop : popToken t acc.futures with
  | none => rw [hpop] at herr; cases herr
  | some pr =>
    obtain ⟨e1, rest⟩ := pr
    rw [hpop] at herr
    dsimp only at herr
    cases hpm : process_msg p eng e1.msg i with
    | ok res => rw [hpm] at herr; cases herr
    | error err =>
      rw [hpm] at herr
      cases err with
      | szBadInput =>
        unfold drainDeadLetter at herr
        cases hr : p e1.msg.body with
        | none =>
          rw [hr] at herr
          simp only [Except.error.injEq, Prod.mk.injEq] at herr
          exact Or.inr herr.2.symm
        | some r => rw [hr] at herr; cases herr
      | szRetryTimeout =>
        unfold drainDeadLetter at herr
        cases hr : p e1.msg.body with
        | none =>
          rw [hr] at herr
          simp only [Except.error.injEq, Prod.mk.injEq] at herr
          exact Or.inr herr.2.symm
        | some r => rw [hr] at herr; cases herr
      | other =>
        simp only [Except.error.injEq, Prod.mk.injEq] at herr
        exact Or.inl herr.2.symm

lemma drainList_other_error (p : String → Option Record) (eng : Record → EngineOutcome)
    (i : Bool) (I : ℕ) (now : ℤ) :
    ∀ (done : List ℕ) (acc : DrainAcc) (tok : ℕ) (e : Entry),
      (acc.futures.map Prod.fst).Nodup →
      (tok, e) ∈ acc.futures →
      (∀ te ∈ acc.futures, te.2.msg = e.msg → te = (tok, e)) →
      tok ∈ done →
      process_msg p eng e.msg i = .error .other →
      e.msg ∉ acc.deleteBatch →
      ∃ a tr, drainList p eng i I now done acc = .error (a, tr) ∧
        Act.complete e.msg ∉ tr ∧ Act.deadLetter e.msg ∉ tr := by
  intro done
  induction done with
  | nil => intro acc tok e _ _ _ htok; simp at htok
  | cons t ts ih =>
    intro acc tok e hkeys hmem huniq htok hproc hbatch
    by_cases ht : t = tok
    · subst ht
      obtain ⟨rest, hpop⟩ := popToken_of_mem_nodup hkeys hmem
      have hone : drainOne p eng i I now acc t =
          .error ({ acc with futures := rest }, []) := by
        unfold drainOne
        rw [hpop]
        dsimp only
        rw [hproc]
      refine ⟨{ acc with futures := rest }, [], ?_, by simp, by simp⟩
      simp only [drainList, hone]
    · have htok2 : tok ∈ ts := by
        rcases List.mem_cons.mp htok with h | h
        · exact absurd h.symm ht
        · exact h
      cases hpop : popToken t acc.futures with
      | none =>
        -- this completed future is somehow not registered: skipped, drain continues
        have hone : drainOne p eng i I now acc t = .ok (acc, []) := by
          unfold drainOne
          rw [hpop]
        obtain ⟨a, tr, hrec, hc, hd⟩ := ih acc tok e hkeys hmem huniq htok2 hproc hbatch
        exact ⟨a, tr, by simp [drainList, hone, hrec], hc, hd⟩
      | some pr =>
        obtain ⟨e1, rest⟩ := pr
        have hsub := popToken_sublist hpop
        have hmem2 : (tok, e) ∈ rest :=
          popToken_mem_of_ne hpop hmem (fun h => ht h.symm)
        have hkeys2 : (rest.map Prod.fst).Nodup :=
          List.Nodup.sublist (List.Sublist.map Prod.fst hsub) hkeys
        have he1mem : (t, e1) ∈ acc.futures := popToken_mem_self hpop
        have hne_msg : e1.msg ≠ e.msg := by
          intro heq
          have h2 := huniq (t, e1) he1mem heq
          simp only [Prod.mk.injEq] at h2
          exact ht h2.1
        cases hone : drainOne p eng i I now acc t with
        | error r =>
          obtain ⟨a0, tr0⟩ := r
          refine ⟨a0, tr0, by simp only [drainList, hone], ?_, ?_⟩ <;>
            rcases drainOne_error_trace p eng i I now acc t a0 tr0 hone with h | h <;>
              simp [h]
        | ok pr1 =>
          obtain ⟨a1, tr1⟩ := pr1
          obtain ⟨hfut1, hcomp1, hdl1, hbatch1, -⟩ :=
            drainOne_ok_actions p eng i I now acc t e1 rest a1 tr1 hpop hone
          have hmem3 : (tok, e) ∈ a1.futures := by rw [hfut1]; exact hmem2
          have hkeys3 : (a1.futures.map Prod.fst).Nodup := by rw [hfut1]; exact hkeys2
          have huniq3 : ∀ te ∈ a1.futures, te.2.msg = e.msg → te = (tok, e) := by
            intro te hte heq
            rw [hfut1] at hte
            exact huniq te (hsub.subset hte) heq
          have hbatch3 : e.msg ∉ a1.deleteBatch := by
            intro hm
            rcases hbatch1 e.msg hm with h | h
            · exact hbatch h
            · exact hne_msg h.symm
          obtain ⟨a, tr, hrec, hc, hd⟩ := ih a1 tok e hkeys3 hmem3 huniq3 htok2 hproc hbatch3
          refine ⟨a, tr1 ++ tr, by simp only [drainList, hone, hrec], ?_, ?_⟩
          · intro hmem4
            rcases List.mem_append.mp hmem4 with h | h
            · rcases hcomp1 e.msg h with h2 | h2
              · exact hbatch h2
              · exact hne_msg h2.symm
            · exact hc h
          · intro hmem4
            rcases List.mem_append.mp hmem4 with h | h
            · exact hne_msg ((hdl1 e.msg h).symm)
            · exact hd h

lemma drainOne_deadLetter_spec (p : String → Option Record) (eng : Record → EngineOutcome)
    (i : Bool) (I : ℕ) (now : ℤ) (acc : DrainAcc) (t : ℕ) (e : Entry)
    (rest : List (ℕ × Entry))
    (hpop : popToken t acc.futures = some (e, rest))
    (hbad : process_msg p eng e.msg i = .error .szBadInput ∨
      process_msg p eng e.msg i = .error .szRetryTimeout) :
    ∃ a1 tr1, drainOne p eng i I now acc t = .ok (a1, tr1) ∧
      (([Act.deadLetter e.msg, Act.complete e.msg].Sublist tr1) ∨
       (Act.deadLetter e.msg ∈ tr1 ∧ e.msg ∈ a1.deleteBatch)) := by
  obtain ⟨r, hr⟩ := process_msg_classified_parse hbad
  have hdl : drainOne p eng i I now acc t =
      drainDeadLetter p I now e { acc with futures := rest } := by
    unfold drainOne
    rw [hpop]
    dsimp only
    rcases hbad with hb | hb <;> rw [hb]
  rw [hdl]
  unfold drainDeadLetter
  rw [hr]
  simp only [afterAck_eq]
  refine ⟨_, _, rfl, ?_⟩
  dsimp only
  by_cases hf : acc.deleteCnt + 1 = 10
  · refine Or.inl ?_
    rw [if_pos hf]
    have h1 : [Act.deadLetter e.msg].Sublist
        [Act.errPrint, Act.deadLetterLine r, Act.deadLetter e.msg] := by
      simp [List.singleton_sublist]
    have h2 : [Act.complete e.msg].Sublist
        ((List.map Act.complete (acc.deleteBatch ++ [e.msg])) ++
          (if (acc.messages + 1) % I = 0 then
            [Act.rateLine (acc.messages + 1) (rateSpeed I (now - acc.prevTime))] else [])) := by
      rw [List.singleton_sublist]
      refine List.mem_append.mpr (Or.inl ?_)
      exact List.mem_map_of_mem Act.complete (by simp)
    simpa using List.Sublist.append h1 h2
  · refine Or.inr ⟨by simp, ?_⟩
    rw [if_neg hf]
    simp

lemma drainList_ack_eventually (p : String → Option Record) (eng : Record → EngineOutcome)
    (i : Bool) (I : ℕ) (now : ℤ) :
    ∀ (done : List ℕ) (acc : DrainAcc) (a : DrainAcc) (tr : List Act),
      drainList p eng i I now done acc = .ok (a, tr) →
      ∀ m ∈ acc.deleteBatch, Act.complete m ∈ tr ∨ m ∈ a.deleteBatch := by
  intro done
  induction done with
  | nil =>
    intro acc a tr hok m hm
    simp only [drainList, Except.ok.injEq, Prod.mk.injEq] at hok
    obtain ⟨rfl, rfl⟩ := hok
    exact Or.inr hm
  | cons t ts ih =>
    intro acc a tr hok m hm
    simp only [drainList] at hok
    cases hone : drainOne p eng i I now acc t with
    | error r => rw [hone] at hok; cases hok
    | ok pr1 =>
      obtain ⟨a1, tr1⟩ := pr1
      rw [hone] at hok
      dsimp only at hok
      cases hrec : drainList p eng i I now ts a1 with
      | error r => rw [hrec] at hok; cases hok
      | ok pr2 =>
        obtain ⟨a2, tr2⟩ := pr2
        rw [hrec] at hok
        simp only [Except.ok.injEq, Prod.mk.injEq] at hok
        obtain ⟨rfl, rfl⟩ := hok
        cases hpop : popToken t acc.futures with
        | none =>
          have hone2 : drainOne p eng i I now acc t = .ok (acc, []) := by
            unfold drainOne
            rw [hpop]
          rw [hone2] at hone
          simp only [Except.ok.injEq, Prod.mk.injEq] at hone
          obtain ⟨rfl, rfl⟩ := hone
          rcases ih _ _ _ hrec m hm with h | h
          · exact Or.inl (List.mem_append.mpr (Or.inr h))
          · exact Or.inr h
        | some pr =>
          obtain ⟨e1, rest⟩ := pr
          obtain ⟨-, -, -, -, hcarry⟩ :=
            drainOne_ok_actions p eng i I now acc t e1 rest a1 tr1 hpop hone
          rcases hcarry m hm with h | h
          · exact Or.inl (List.mem_append.mpr (Or.inl h))
          · rcases ih _ _ _ hrec m h with h2 | h2
            · exact Or.inl (List.mem_append.mpr (Or.inr h2))
            · exact Or.inr h2

lemma flushTrace_complete_mem {a : DrainAcc} {m : Msg} (h : m ∈ a.deleteBatch) :
    Act.complete m ∈ flushTrace a :=
  List.mem_map_of_mem Act.complete h

lemma drainList_deadLetter_before_ack (p : String → Option Record)
    (eng : Record → EngineOutcome) (i : Bool) (I : ℕ) (now : ℤ) :
    ∀ (done : List ℕ) (acc : DrainAcc) (tok : ℕ) (e : Entry),
      (acc.futures.map Prod.fst).Nodup →
      (tok, e) ∈ acc.futures →
      (∀ te ∈ acc.futures, te.2.msg = e.msg → te = (tok, e)) →
      tok ∈ done →
      (process_msg p eng e.msg i = .error .szBadInput ∨
        process_msg p eng e.msg i = .error .szRetryTimeout) →
      e.msg ∉ acc.deleteBatch →
      ∀ (a : DrainAcc) (tr : List Act),
        drainList p eng i I now done acc = .ok (a, tr) →
        [Act.deadLetter e.msg, Act.complete e.msg].Sublist (tr ++ flushTrace a) := by
  intro done
  induction done with
  | nil => intro acc tok e _ _ _ htok; simp at htok
  | cons t ts ih =>
    intro acc tok e hkeys hmem huniq htok hbad hbatch a tr hok
    simp only [drainList] at hok
    cases hone : drainOne p eng i I now acc t with
    | error r => rw [hone] at hok; cases hok
    | ok pr1 =>
      obtain ⟨a1, tr1⟩ := pr1
      rw [hone] at hok
      dsimp only at hok
      cases hrec : drainList p eng i I now ts a1 with
      | error r => rw [hrec] at hok; cases hok
      | ok pr2 =>
        obtain ⟨a2, tr2⟩ := pr2
        rw [hrec] at hok
        simp only [Except.ok.injEq, Prod.mk.injEq] at hok
        obtain ⟨rfl, rfl⟩ := hok
        rw [List.append_assoc]
        by_cases ht : t = tok
        · subst ht
          obtain ⟨rest, hpop⟩ := popToken_of_mem_nodup hkeys hmem
          obtain ⟨a1x, tr1x, hone2, hspec⟩ :=
            drainOne_deadLetter_spec p eng i I now acc t e rest hpop hbad
          rw [hone2] at hone
          simp only [Except.ok.injEq, Prod.mk.injEq] at hone
          obtain ⟨rfl, rfl⟩ := hone
          rcases hspec with hsub | ⟨hdl, hbatch1⟩
          · exact hsub.trans (List.sublist_append_left tr1x (tr2 ++ flushTrace a2))
          · have hcomp : Act.complete e.msg ∈ tr2 ++ flushTrace a2 := by
              rcases drainList_ack_eventually p eng i I now ts a1x a2 tr2 hrec e.msg hbatch1
                with h | h
              · exact List.mem_append.mpr (Or.inl h)
              · exact List.mem_append.mpr (Or.inr (flushTrace_complete_mem h))
            have h1 : [Act.deadLetter e.msg].Sublist tr1x :=
              List.singleton_sublist.mpr hdl
            have h2 : [Act.complete e.msg].Sublist (tr2 ++ flushTrace a2) :=
              List.singleton_sublist.mpr hcomp
            simpa using List.Sublist.append h1 h2
        · have htok2 : tok ∈ ts := by
            rcases List.mem_cons.mp htok with h | h
            · exact absurd h.symm ht
            · exact h
          cases hpop : popToken t acc.futures with
          | none =>
            have hone2 : drainOne p eng i I now acc t = .ok (acc, []) := by
              unfold drainOne
              rw [hpop]
            rw [hone2] at hone
            simp only [Except.ok.injEq, Prod.mk.injEq] at hone
            obtain ⟨rfl, rfl⟩ := hone
            have h := ih acc tok e hkeys hmem huniq htok2 hbad hbatch a2 tr2 hrec
            simpa using h
          | some pr =>
            obtain ⟨e1, rest⟩ := pr
            have hsub := popToken_sublist hpop
            have hmem2 : (tok, e) ∈ rest :=
              popToken_mem_of_ne hpop hmem (fun h => ht h.symm)
            have hkeys2 : (rest.map Prod.fst).Nodup :=
              List.Nodup.sublist (List.Sublist.map Prod.fst hsub) hkeys
            have he1mem : (t, e1) ∈ acc.futures := popToken_mem_self hpop
            have hne_msg : e1.msg ≠ e.msg := by
              intro heq
              have h2 := huniq (t, e1) he1mem heq
              simp only [Prod.mk.injEq] at h2
              exact ht h2.1
            obtain ⟨hfut1, -, -, hbatch1, -⟩ :=
              drainOne_ok_actions p eng i I now acc t e1 rest a1 tr1 hpop hone
            have hmem3 : (tok, e) ∈ a1.futures := by rw [hfut1]; exact hmem2
            have hkeys3 : (a1.futures.map Prod.fst).Nodup := by rw [hfut1]; exact hkeys2
            have huniq3 : ∀ te ∈ a1.futures, te.2.msg = e.msg → te = (tok, e) := by
              intro te hte heq
              rw [hfut1] at hte
              exact huniq te (hsub.subset hte) heq
            have hbatch3 : e.msg ∉ a1.deleteBatch := by
              intro hmm
              rcases hbatch1 e.msg hmm with h | h
              · exact hbatch h
              · exact hne_msg h.symm
            have h := ih a1 tok e hkeys3 hmem3 huniq3 htok2 hbad hbatch3 a2 tr2 hrec
            exact h.trans (List.sublist_append_right tr1 (tr2 ++ flushTrace a2))

/-- C3 (amended): A completion that raised an error other than the two
classified Senzing errors is neither acked nor dead-lettered, but the error
is not contained in the per-message handling: the drain loop re-raises it,
the iteration ends in the shutdown handler (which logs the shutting-down
line) and no ack or dead-letter of that message ever follows — the
coordinator shuts down rather than continuing.  Hypotheses: the registry
keys are distinct (futures are distinct objects), the message is held by
exactly one in-flight entry, and its token is among the completions
returned by `wait`. -/
theorem unclassified_error_shuts_down (parseRec : String → Option Record)
    (engine : Record → EngineOutcome) (cfg : Config) (inp : IterInput) (st : LoopState)
    (tok : ℕ) (e : Entry)
    (hkeys : (st.futures.map Prod.fst).Nodup)
    (hmem : (tok, e) ∈ st.futures)
    (huniq : ∀ te ∈ st.futures, te.2.msg = e.msg → te = (tok, e))
    (htok : tok ∈ inp.doneTokens)
    (hproc : process_msg parseRec engine e.msg cfg.withInfo = .error .other) :
    ∃ st2 tr, iterate parseRec engine cfg inp st = .error (st2, tr) ∧
      Act.complete e.msg ∉ tr ∧ Act.deadLetter e.msg ∉ tr ∧
      runStep parseRec engine cfg inp st =
        tr ++ shutdownSeq parseRec inp.shutNow inp.shutDone st2.futures ∧
      Act.shutdownErrLine ∈ runStep parseRec engine cfg inp st ∧
      Act.complete e.msg ∉ runStep parseRec engine cfg inp st ∧
      Act.deadLetter e.msg ∉ runStep parseRec engine cfg inp st := by
  have hne : st.futures.isEmpty = false := by
    cases hfs : st.futures with
    | nil => rw [hfs] at hmem; simp at hmem
    | cons hd tl => rfl
  obtain ⟨a, tr, herr, hc, hd⟩ := drainList_other_error parseRec engine cfg.withInfo
    cfg.interval inp.now inp.doneTokens (initAcc st.futures st.messages st.prevTime) tok e
    (by simpa [initAcc] using hkeys) (by simpa [initAcc] using hmem)
    (by simpa [initAcc] using huniq) htok hproc (by simp [initAcc])
  have hphase : drainPhase parseRec engine cfg.withInfo cfg.interval inp.now st.futures
      st.messages st.prevTime inp.doneTokens = .error (a, tr) := by
    unfold drainPhase
    rw [herr]
  have hiter : iterate parseRec engine cfg inp st =
      .error ({ st with futures := a.futures, messages := a.messages,
                        prevTime := a.prevTime }, tr) := by
    unfold iterate
    rw [hne, hphase]
    simp
  refine ⟨_, tr, hiter, hc, hd, ?_, ?_, ?_, ?_⟩
  · unfold runStep
    rw [hiter]
  · unfold runStep
    rw [hiter]
    refine List.mem_append.mpr (Or.inr ?_)
    simp [shutdownSeq]
  · unfold runStep
    rw [hiter]
    intro hmm
    rcases List.mem_append.mp hmm with h | h
    · exact hc h
    · exact (shutdownSeq_no_msg_actions parseRec inp.shutNow inp.shutDone _ e.msg).1 h
  · unfold runStep
    rw [hiter]
    intro hmm
    rcases List.mem_append.mp hmm with h | h
    · exact hd h
    · exact (shutdownSeq_no_msg_actions parseRec inp.shutNow inp.shutDone _ e.msg).2 h

/-- C3 counterexample: at a concrete input whose single drained completion
raised an unclassified error, the iteration does not complete (the claim
says the coordinator continues its loop) — it raises into the shutdown
handler and the process trace ends with exit code `-1`; the message is
indeed neither acked nor dead-lettered. -/
theorem unclassified_error_counterexample :
    (iterate (fun s => if s = "b" then some { dataSource := "DS", recordId := "9" } else none)
      (fun _ => EngineOutcome.otherError)
      { maxWorkers := 2, prefetch := 1, longRecord := 300, interval := 10000, withInfo := false }
      { now := 8, doneTokens := [0], doneAtScan := [], batches := [],
        dispatchNow := 8, shutNow := 8, shutDone := [] }
      { futures := [(0, { msg := { handleId := 3, body := "b" }, startTime := 1, extended := 0 })],
        messages := 0, prevTime := 0, logCheckTime := 8, nextTok := 1 }).isOk = false ∧
    Act.complete { handleId := 3, body := "b" } ∉
      runStep (fun s => if s = "b" then some { dataSource := "DS", recordId := "9" } else none)
        (fun _ => EngineOutcome.otherError)
        { maxWorkers := 2, prefetch := 1, longRecord := 300, interval := 10000, withInfo := false }
        { now := 8, doneTokens := [0], doneAtScan := [], batches := [],
          dispatchNow := 8, shutNow := 8, shutDone := [] }
        { futures := [(0, { msg := { handleId := 3, body := "b" }, startTime := 1, extended := 0 })],
          messages := 0, prevTime := 0, logCheckTime := 8, nextTok := 1 } ∧
    Act.deadLetter { handleId := 3, body := "b" } ∉
      runStep (fun s => if s = "b" then some { dataSource := "DS", recordId := "9" } else none)
        (fun _ => EngineOutcome.otherError)
        { maxWorkers := 2, prefetch := 1, longRecord := 300, interval := 10000, withInfo := false }
        { now := 8, doneTokens := [0], doneAtScan := [], batches := [],
          dispatchNow := 8, shutNow := 8, shutDone := [] }
        { futures := [(0, { msg := { handleId := 3, body := "b" }, startTime := 1, extended := 0 })],
          messages := 0, prevTime := 0, logCheckTime := 8, nextTok := 1 } ∧
    Act.exitCode (-1) ∈
      runStep (fun s => if s = "b" then some { dataSource := "DS", recordId := "9" } else none)
        (fun _ => EngineOutcome.otherError)
        { maxWorkers := 2, prefetch := 1, longRecord := 300, interval := 10000, withInfo := false }
        { now := 8, doneTokens := [0], doneAtScan := [], batches := [],
          dispatchNow := 8, shutNow := 8, shutDone := [] }
        { futures := [(0, { msg := { handleId := 3, body := "b" }, startTime := 1, extended := 0 })],
          messages := 0, prevTime := 0, logCheckTime := 8, nextTok := 1 } := by
  refine ⟨rfl, ?_, ?_, ?_⟩ <;> decide

/-- Witness for the amended C3 at a concrete input. -/
theorem unclassified_error_shuts_down_witness :
    ∃ st2 tr, iterate
        (fun s => if s = "c" then some { dataSource := "E", recordId := "4" } else none)
        (fun _ => EngineOutcome.otherError)
        { maxWorkers := 1, prefetch := 0, longRecord := 10, interval := 5, withInfo := false }
        { now := 3, doneTokens := [7], doneAtScan := [], batches := [],
          dispatchNow := 3, shutNow := 4, shutDone := [] }
        { futures := [(7, { msg := { handleId := 0, body := "c" }, startTime := 2, extended := 0 })],
          messages := 0, prevTime := 0, logCheckTime := 3, nextTok := 8 } = .error (st2, tr) ∧
      Act.complete { handleId := 0, body := "c" } ∉ tr ∧
      Act.deadLetter { handleId := 0, body := "c" } ∉ tr ∧
      runStep (fun s => if s = "c" then some { dataSource := "E", recordId := "4" } else none)
        (fun _ => EngineOutcome.otherError)
        { maxWorkers := 1, prefetch := 0, longRecord := 10, interval := 5, withInfo := false }
        { now := 3, doneTokens := [7], doneAtScan := [], batches := [],
          dispatchNow := 3, shutNow := 4, shutDone := [] }
        { futures := [(7, { msg := { handleId := 0, body := "c" }, startTime := 2, extended := 0 })],
          messages := 0, prevTime := 0, logCheckTime := 3, nextTok := 8 } =
        tr ++ shutdownSeq (fun s => if s = "c" then some { dataSource := "E", recordId := "4" } else none)
          4 [] st2.futures ∧
      Act.shutdownErrLine ∈ runStep
        (fun s => if s = "c" then some { dataSource := "E", recordId := "4" } else none)
        (fun _ => EngineOutcome.otherError)
        { maxWorkers := 1, prefetch := 0, longRecord := 10, interval := 5, withInfo := false }
        { now := 3, doneTokens := [7], doneAtScan := [], batches := [],
          dispatchNow := 3, shutNow := 4, shutDone := [] }
        { futures := [(7, { msg := { handleId := 0, body := "c" }, startTime := 2, extended := 0 })],
          messages := 0, prevTime := 0, logCheckTime := 3, nextTok := 8 } ∧
      Act.complete { handleId := 0, body := "c" } ∉ runStep
        (fun s => if s = "c" then some { dataSource := "E", recordId := "4" } else none)
        (fun _ => EngineOutcome.otherError)
        { maxWorkers := 1, prefetch := 0, longRecord := 10, interval := 5, withInfo := false }
        { now := 3, doneTokens := [7], doneAtScan := [], batches := [],
          dispatchNow := 3, shutNow := 4, shutDone := [] }
        { futures := [(7, { msg := { handleId := 0, body := "c" }, startTime := 2, extended := 0 })],
          messages := 0, prevTime := 0, logCheckTime := 3, nextTok := 8 } ∧
      Act.deadLetter { handleId := 0, body := "c" } ∉ runStep
        (fun s => if s = "c" then some { dataSource := "E", recordId := "4" } else none)
        (fun _ => EngineOutcome.otherError)
        { maxWorkers := 1, prefetch := 0, longRecord := 10, interval := 5, withInfo := false }
        { now := 3, doneTokens := [7], doneAtScan := [], batches := [],
          dispatchNow := 3, shutNow := 4, shutDone := [] }
        { futures := [(7, { msg := { handleId := 0, body := "c" }, startTime := 2, extended := 0 })],
          messages := 0, prevTime := 0, logCheckTime := 3, nextTok := 8 } := by
  exact unclassified_error_shuts_down _ _ _ _ _ 7
    { msg := { handleId := 0, body := "c" }, startTime := 2, extended := 0 }
    (by decide) (by decide) (by decide) (by decide) (by decide)

/-- C2 (amended): For a completed task whose processing raised
`SzBadInputError` or `SzRetryTimeoutExceededError`, the coordinator calls
`dead_letter_message(handle)` and — provided the drain of this batch of
completions finishes without an unhandled error from another completion —
later calls `complete_message(handle)`, in that order: the sublist
`[deadLetter, complete]` of the drain trace.  (When a later completion in
the same drain raises an unclassified error, the pending delete batch is
dropped and the dead-lettered handle is never acked; see the
counterexample.)  Hypotheses: distinct registry keys, the message held by
exactly one entry, its token among the drained completions. -/
theorem deadletter_before_ack (parseRec : String → Option Record)
    (engine : Record → EngineOutcome) (info : Bool) (interval : ℕ) (now : ℤ)
    (futures : List (ℕ × Entry)) (messages : ℕ) (prevTime : ℤ) (done : List ℕ)
    (tok : ℕ) (e : Entry) (a : DrainAcc) (tr : List Act)
    (hkeys : (futures.map Prod.fst).Nodup)
    (hmem : (tok, e) ∈ futures)
    (huniq : ∀ te ∈ futures, te.2.msg = e.msg → te = (tok, e))
    (htok : tok ∈ done)
    (hbad : process_msg parseRec engine e.msg info = .error .szBadInput ∨
      process_msg parseRec engine e.msg info = .error .szRetryTimeout)
    (hok : drainPhase parseRec engine info interval now futures messages prevTime done =
      .ok (a, tr)) :
    [Act.deadLetter e.msg, Act.complete e.msg].Sublist tr := by
  unfold drainPhase at hok
  cases hdl : drainList parseRec engine info interval now done
      (initAcc futures messages prevTime) with
  | error r => rw [hdl] at hok; cases hok
  | ok pr =>
    obtain ⟨a0, tr0⟩ := pr
    rw [hdl] at hok
    simp only [Except.ok.injEq, Prod.mk.injEq] at hok
    obtain ⟨rfl, rfl⟩ := hok
    exact drainList_deadLetter_before_ack parseRec engine info interval now done
      (initAcc futures messages prevTime) tok e
      (by simpa [initAcc] using hkeys) (by simpa [initAcc] using hmem)
      (by simpa [initAcc] using huniq) htok hbad (by simp [initAcc]) a0 tr0 hdl

/-- C2 counterexample: a drain with a bad-input completion followed by an
unclassified-error completion dead-letters the first handle but never acks
it: the drain raises, the pending delete batch is dropped, and the process
exits, so the claim that the handle "is nevertheless acked afterwards" is
false at this input. -/
theorem deadletter_unacked_counterexample :
    Act.deadLetter { handleId := 0, body := "b" } ∈
      runStep
        (fun s => if s = "b" then some { dataSource := "DS", recordId := "1" }
          else if s = "c" then some { dataSource := "DS", recordId := "2" } else none)
        (fun r => if r.recordId = "1" then EngineOutcome.badInput else EngineOutcome.otherError)
        { maxWorkers := 2, prefetch := 1, longRecord := 300, interval := 10000, withInfo := false }
        { now := 7, doneTokens := [0, 1], doneAtScan := [], batches := [],
          dispatchNow := 7, shutNow := 8, shutDone := [] }
        { futures := [(0, { msg := { handleId := 0, body := "b" }, startTime := 0, extended := 0 }),
                      (1, { msg := { handleId := 1, body := "c" }, startTime := 0, extended := 0 })],
          messages := 0, prevTime := 0, logCheckTime := 7, nextTok := 2 } ∧
    Act.complete { handleId := 0, body := "b" } ∉
      runStep
        (fun s => if s = "b" then some { dataSource := "DS", recordId := "1" }
          else if s = "c" then some { dataSource := "DS", recordId := "2" } else none)
        (fun r => if r.recordId = "1" then EngineOutcome.badInput else EngineOutcome.otherError)
        { maxWorkers := 2, prefetch := 1, longRecord := 300, interval := 10000, withInfo := false }
        { now := 7, doneTokens := [0, 1], doneAtScan := [], batches := [],
          dispatchNow := 7, shutNow := 8, shutDone := [] }
        { futures := [(0, { msg := { handleId := 0, body := "b" }, startTime := 0, extended := 0 }),
                      (1, { msg := { handleId := 1, body := "c" }, startTime := 0, extended := 0 })],
          messages := 0, prevTime := 0, logCheckTime := 7, nextTok := 2 } ∧
    Act.exitCode (-1) ∈
      runStep
        (fun s => if s = "b" then some { dataSource := "DS", recordId := "1" }
          else if s = "c" then some { dataSource := "DS", recordId := "2" } else none)
        (fun r => if r.recordId = "1" then EngineOutcome.badInput else EngineOutcome.otherError)
        { maxWorkers := 2, prefetch := 1, longRecord := 300, interval := 10000, withInfo := false }
        { now := 7, doneTokens := [0, 1], doneAtScan := [], batches := [],
          dispatchNow := 7, shutNow := 8, shutDone := [] }
        { futures := [(0, { msg := { handleId := 0, body := "b" }, startTime := 0, extended := 0 }),
                      (1, { msg := { handleId := 1, body := "c" }, startTime := 0, extended := 0 })],
          messages := 0, prevTime := 0, logCheckTime := 7, nextTok := 2 } := by
  refine ⟨?_, ?_, ?_⟩ <;> decide

/-- Witness for the amended C2: a single bad-input completion is
dead-lettered and then acked, in that order. -/
theorem deadletter_before_ack_witness :
    [Act.deadLetter { handleId := 0, body := "b" },
     Act.complete { handleId := 0, body := "b" }].Sublist
      (match drainPhase
          (fun s => if s = "b" then some { dataSource := "DS", recordId := "1" } else none)
          (fun _ => EngineOutcome.badInput) false 10000 7
          [(0, { msg := { handleId := 0, body := "b" }, startTime := 0, extended := 0 })]
          0 0 [0] with
        | .ok (_, tr) => tr
        | .error (_, tr) => tr) := by
  have h := deadletter_before_ack
    (fun s => if s = "b" then some { dataSource := "DS", recordId := "1" } else none)
    (fun _ => EngineOutcome.badInput) false 10000 7
    [(0, { msg := { handleId := 0, body := "b" }, startTime := 0, extended := 0 })]
    0 0 [0] 0 { msg := { handleId := 0, body := "b" }, startTime := 0, extended := 0 }
    _ _ (by decide) (by decide) (by decide) (by decide) (Or.inl (by decide)) rfl
  exact h
